import Mathlib

/-!
# ex_term clipboard bridge (`lib/_js/ex_term.js`)

A shallow embedding of the selection-to-text serialization of the terminal grid
(`rowCol`, `fetchCols`, `fetchRows`, `modifyClipboard`), of the paste relay
(`sendPaste`) and of the two key-down listeners, and the properties of them that
the specification states.

Modelling conventions
* A JavaScript string is the list of its code points (`JSString`); its `length`
  counts UTF-16 code units (`utf16Length`), two for a code point outside the basic
  plane.
* A JavaScript number is `JSNum`: `NaN`, or an integer.  The operations on it are
  those of the integers: `index += 1` is integer addition and number-to-string is
  the decimal expansion.  JavaScript numbers are doubles, and these coincide with
  the integer operations up to `exactLimit`, which is 2^53: every integer up to it
  is a number, printed in decimal and read back exactly, and `x + 1` is exact for
  `x` below it, while at 2^53 it gives `x` again.  The theorems that run a loop or
  print a number therefore carry the hypothesis that the numbers involved stay in
  that range (`ExactInt`, `ExactStep`, `ExactScan`); `fetchColsIncrements_exact`
  shows that under `ExactScan` every `index += 1` the scan executes is on an index
  below 2^53.
* `Number(s)` is `toNumber`: a string that is no numeric literal gives `NaN`, a
  decimal integer of absolute value up to 2^53 gives its value, and a literal
  whose value is no such integer is outside the model.
* The document is the finite list of its elements in document order;
  `getElementById` returns the first element carrying the identifier.
* A `while (true)` loop is a recursion on a step budget; `none` is the loop that
  does not exit.  `fetchCols` runs the loop with a budget of one more step than
  the document has elements; on integer coordinates the scan always exits within
  it (`fetchColsLoop_int`), since the cells it visits are distinct elements.
* The functions are first given without the bindings that the program assigns
  without declaring them; `rowColAmbient` to `modifyClipboardAmbient` thread these
  bindings as shared state, and return the same results
  (`modifyClipboardAmbient_result`).
-/

namespace ExTerm

/-! ## Strings and numbers -/

/-- A JavaScript string, as the list of its code points.  The `length` of the source
is `utf16Length`, not the length of the list. -/
abbrev JSString := List Char

/-- A JavaScript number as far as this program meets one: `NaN` or an integer. -/
inductive JSNum where
  | nan
  | int (z : Int)
  deriving DecidableEq, Repr

namespace JSNum

/-- Loose equality `a == b` of two numbers: `NaN` equals nothing. -/
def eq : JSNum → JSNum → Bool
  | int a, int b => decide (a = b)
  | _, _ => false

/-- The comparison `a < b`: false as soon as one side is `NaN`. -/
def lt : JSNum → JSNum → Bool
  | int a, int b => decide (a < b)
  | _, _ => false

/-- The comparison `a <= b`: false as soon as one side is `NaN`. -/
def le : JSNum → JSNum → Bool
  | int a, int b => decide (a ≤ b)
  | _, _ => false

/-- The update `index += 1`, as integer addition: the double addition of the source
is this one for every index below 2^53 (`exactLimit`). -/
def succ : JSNum → JSNum
  | int a => int (a + 1)
  | nan => nan

end JSNum

/-- The decimal digit character of a number below ten. -/
def digitChar : Nat → Char
  | 0 => '0' | 1 => '1' | 2 => '2' | 3 => '3' | 4 => '4'
  | 5 => '5' | 6 => '6' | 7 => '7' | 8 => '8' | _ => '9'

/-- Decimal expansion of a natural number, most significant digit first, on a
step budget (`n + 1` steps are enough for `n`). -/
def natDigits : Nat → Nat → JSString
  | 0, _ => []
  | fuel + 1, n =>
    if n < 10 then [digitChar n] else natDigits fuel (n / 10) ++ [digitChar (n % 10)]

/-- Decimal expansion of a natural number, without leading zeros. -/
def natToString (n : Nat) : JSString := natDigits (n + 1) n

/-- Number-to-string conversion, as string concatenation `"" + x` applies it: the
decimal expansion, which is what the source prints for an integer of absolute
value below 10^21. -/
def numToString : JSNum → JSString
  | JSNum.nan => "NaN".toList
  | JSNum.int (Int.ofNat n) => natToString n
  | JSNum.int (Int.negSucc n) => '-' :: natToString (n + 1)

/-- White space and line terminators, the characters `String.prototype.trim` and
`Number` strip. -/
def isWhiteSpace (c : Char) : Bool :=
  let n := c.toNat
  n = 0x09 || n = 0x0A || n = 0x0B || n = 0x0C || n = 0x0D || n = 0x20 || n = 0xA0 ||
  n = 0x1680 || (0x2000 ≤ n && n ≤ 0x200A) || n = 0x2028 || n = 0x2029 || n = 0x202F ||
  n = 0x205F || n = 0x3000 || n = 0xFEFF

/-- The method `s.trim()`: remove white space at both ends. -/
def trim (s : JSString) : JSString :=
  ((s.dropWhile isWhiteSpace).reverse.dropWhile isWhiteSpace).reverse

/-- The method `" ".repeat(n)`. -/
def spaces (n : Nat) : JSString := List.replicate n ' '

/-! ## The document -/

/-- An element of the document: its identifier and its text content. -/
structure Element where
  id : JSString
  textContent : JSString
  deriving DecidableEq, Repr

/-- The document: its elements in document order. -/
abbrev Document := List Element

/-- The call `document.getElementById(id)`: the first element with that identifier,
`none` for `null`. -/
def getElementById (doc : Document) (id : JSString) : Option Element :=
  doc.find? (fun e => decide (e.id = id))

/-- The identifier `"exterm-cell-" + row + "-" + index` that `fetchCols` builds. -/
def cellId (row index : JSNum) : JSString :=
  "exterm-cell-".toList ++ numToString row ++ "-".toList ++ numToString index

/-! ## `fetchCols` -/

/-- A coordinate pair `[row, col]`. -/
abbrev Coord := JSNum × JSNum

/-- The body of the scan for one cell content: an empty content increments
`buffered_spaces`, any other is appended to `line` after the buffered spaces, which
are reset. The state is `(line, buffered_spaces)`. -/
def emit (st : JSString × Nat) (content : JSString) : JSString × Nat :=
  if content = [] then (st.1, st.2 + 1)
  else (st.1 ++ (spaces st.2 ++ content), 0)

/-- The `while (true)` loop of `fetchCols`, from the state `(index, line,
buffered_spaces)`; it returns the final `line`, or `none` when the step budget
is used up before the loop exits. -/
def fetchColsLoop (doc : Document) (row row2 col2 : JSNum) :
    Nat → JSNum → JSString × Nat → Option JSString
  | 0, _, _ => none
  | fuel + 1, index, st =>
    match getElementById doc (cellId row index) with
    | none => some st.1
    | some element =>
      let st1 := emit st (trim element.textContent)
      if row.eq row2 && index.eq col2 then some st1.1
      else fetchColsLoop doc row row2 col2 fuel index.succ st1

/-- The function `fetchCols(row, [row1, col1], [row2, col2])`: the text of one row
between the bounds, followed by a newline; `none` when the scan does not exit. -/
def fetchCols (doc : Document) (row : JSNum) (start stop : Coord) : Option JSString :=
  let index := if row.eq start.1 then start.2 else JSNum.int 1
  (fetchColsLoop doc row stop.1 stop.2 (doc.length + 1) index ([], 0)).map
    (fun line => line ++ "\n".toList)

/-! ## `fetchRows` -/

/-- The first statement of `fetchRows`: put the two coordinates in order, giving
`(start, end)`. -/
def normalize (coord1 coord2 : Coord) : Coord × Coord :=
  if coord1.1.lt coord2.1 then (coord1, coord2)
  else if coord1.1.eq coord2.1 then
    if coord1.2.lt coord2.2 then (coord1, coord2) else (coord2, coord1)
  else (coord2, coord1)

/-- The values `index` takes in `for (let index = lo; index <= hi; index++)`, with
`index++` as integer addition: the loop of the source takes these values and ends
when `hi` is below 2^53 (`exactLimit`). -/
def forRange : JSNum → JSNum → List Int
  | JSNum.int lo, JSNum.int hi => (List.range (hi + 1 - lo).toNat).map (fun k : Nat => lo + (k : Int))
  | _, _ => []

/-- The `for` loop of `fetchRows` over the remaining rows, `result` so far. -/
def fetchRowsLoop (doc : Document) (start stop : Coord) :
    List Int → JSString → Option JSString
  | [], result => some result
  | index :: rest, result =>
    match fetchCols doc (JSNum.int index) start stop with
    | none => none
    | some line => fetchRowsLoop doc start stop rest (result ++ line)

/-- The function `fetchRows(coord1, coord2)`: the lines of all rows of the ordered
range; `none` when a row scan does not exit. -/
def fetchRows (doc : Document) (coord1 coord2 : Coord) : Option JSString :=
  let r := normalize coord1 coord2
  fetchRowsLoop doc r.1 r.2 (forRange r.1.1 r.2.1) []

/-! ## `rowCol` -/

/-- How an evaluation ends when it does not return a value. -/
inductive Abort where
  /-- a `TypeError` is thrown and leaves the function -/
  | typeError
  /-- a `while (true)` loop does not exit -/
  | noExit
  /-- a numeric literal whose value `JSNum` does not hold: a digit string that
  `Number` rounds, a fraction, an exponent, a radix prefix, `Infinity` -/
  | outsideModel
  /-- a `ReferenceError`: an identifier is read that has no binding -/
  | referenceError
  deriving DecidableEq, Repr

/-- How an evaluation ends: it returns a value, or it is cut short. -/
inductive Completion (α : Type) where
  | ok (value : α)
  | error (abort : Abort)
  deriving DecidableEq, Repr

/-- The integer 2^53.  Every integer of absolute value up to it is a JavaScript
number, and `x + 1` is exact for every such `x` below it; at 2^53 itself the double
addition `x + 1` gives `x` again. -/
def exactLimit : Int := 9007199254740992

/-- An integer that is a JavaScript number in the range where all integers are. -/
def ExactInt (z : Int) : Prop := -exactLimit ≤ z ∧ z ≤ exactLimit

instance (z : Int) : Decidable (ExactInt z) := by
  unfold ExactInt
  infer_instance

/-- The value of a decimal digit character. -/
def charDigit (c : Char) : Option Nat :=
  if c = '0' then some 0 else if c = '1' then some 1 else if c = '2' then some 2
  else if c = '3' then some 3 else if c = '4' then some 4 else if c = '5' then some 5
  else if c = '6' then some 6 else if c = '7' then some 7 else if c = '8' then some 8
  else if c = '9' then some 9 else none

/-- The value of a string of decimal digits (`none` when a character is no digit). -/
def parseDigits (s : JSString) : Option Nat :=
  s.foldl (fun acc c => acc.bind (fun a => (charDigit c).map (fun d => 10 * a + d))) (some 0)

/-- The value of a non-empty string of decimal digits. -/
def parseUnsigned (s : JSString) : Option Nat :=
  if s = [] then none else parseDigits s

/-- The integer that a string without surrounding white space denotes when it is
empty (zero, as for `Number("")`) or an optionally signed non-empty string of
decimal digits. -/
def decimalInteger : JSString → Option Int
  | [] => some 0
  | '+' :: ds => (parseUnsigned ds).map (fun n : Nat => Int.ofNat n)
  | '-' :: ds => (parseUnsigned ds).map (fun n : Nat => -Int.ofNat n)
  | ds => (parseUnsigned ds).map (fun n : Nat => Int.ofNat n)

/-- A decimal digit. -/
def isDecimalDigit (c : Char) : Bool := (charDigit c).isSome

/-- A hexadecimal digit. -/
def isHexDigit (c : Char) : Bool :=
  isDecimalDigit c || c == 'a' || c == 'b' || c == 'c' || c == 'd' || c == 'e' || c == 'f' ||
    c == 'A' || c == 'B' || c == 'C' || c == 'D' || c == 'E' || c == 'F'

/-- An octal digit. -/
def isOctalDigit (c : Char) : Bool :=
  c == '0' || c == '1' || c == '2' || c == '3' || c == '4' || c == '5' || c == '6' || c == '7'

/-- A binary digit. -/
def isBinaryDigit (c : Char) : Bool := c == '0' || c == '1'

/-- A non-empty string of digits of one kind. -/
def isDigits (digit : Char → Bool) (s : JSString) : Bool := !s.isEmpty && s.all digit

/-- The string without one leading sign. -/
def stripSign : JSString → JSString
  | '+' :: rest => rest
  | '-' :: rest => rest
  | s => s

/-- The production `ExponentPart`: `e` or `E`, an optional sign, decimal digits. -/
def isExponentPart : JSString → Bool
  | [] => false
  | c :: rest => (c == 'e' || c == 'E') && isDigits isDecimalDigit (stripSign rest)

/-- The production `StrUnsignedDecimalLiteral`: `Infinity`, or digits with an
optional fraction and exponent, or a fraction that starts with the point. -/
def isUnsignedDecimalLiteral (s : JSString) : Bool :=
  s == "Infinity".toList ||
  (match s.dropWhile isDecimalDigit with
   | '.' :: frac =>
     (!(s.takeWhile isDecimalDigit).isEmpty || !(frac.takeWhile isDecimalDigit).isEmpty) &&
       ((frac.dropWhile isDecimalDigit).isEmpty ||
         isExponentPart (frac.dropWhile isDecimalDigit))
   | rest => !(s.takeWhile isDecimalDigit).isEmpty && (rest.isEmpty || isExponentPart rest))

/-- The production `NonDecimalIntegerLiteral`: a prefix `0x`, `0o` or `0b` in either
case and digits of that radix. -/
def isNonDecimalLiteral : JSString → Bool
  | '0' :: c :: rest =>
    ((c == 'x' || c == 'X') && isDigits isHexDigit rest) ||
    ((c == 'o' || c == 'O') && isDigits isOctalDigit rest) ||
    ((c == 'b' || c == 'B') && isDigits isBinaryDigit rest)
  | _ => false

/-- The production `StrNumericLiteral` on a string without surrounding white space:
the strings that `Number` converts to a number other than `NaN`. -/
def isNumericLiteral (s : JSString) : Bool :=
  isNonDecimalLiteral s || isUnsignedDecimalLiteral (stripSign s)

/-- The conversion `Number(v)` of `undefined` (`none`) or a string.  `undefined` gives
`NaN`.  A string is stripped of white space; the empty string gives `0`; an
optionally signed string of decimal digits gives its value when that is at most
2^53 in absolute value, where the conversion is exact; a string that is no numeric
literal gives `NaN`.  The remaining strings denote numbers that `JSNum` does not
hold (a digit string that `Number` rounds, a fraction, an exponent, a radix prefix,
`Infinity`): for them the result is `none`, outside the model. -/
def toNumber : Option JSString → Option JSNum
  | none => some JSNum.nan
  | some s =>
    match decimalInteger (trim s) with
    | some z => if ExactInt z then some (JSNum.int z) else none
    | none => if isNumericLiteral (trim s) then none else some JSNum.nan

/-- The method `s.split("-")`. -/
def splitDash : JSString → List JSString
  | [] => [[]]
  | c :: cs =>
    if c = '-' then [] :: splitDash cs
    else match splitDash cs with
      | [] => [[c]]
      | seg :: segs => (c :: seg) :: segs

/-- A node of the document as `rowCol` reads it: its `nodeType`, its `id` (`none`
for `undefined`, on nodes that are no elements) and its `parentNode` (`none` for
`null`). -/
inductive Node where
  | mk (nodeType : Nat) (id : Option JSString) (parentNode : Option Node)

namespace Node

/-- The property `node.nodeType`. -/
def nodeType : Node → Nat
  | mk t _ _ => t

/-- The property `node.id`. -/
def id : Node → Option JSString
  | mk _ i _ => i

/-- The property `node.parentNode`. -/
def parentNode : Node → Option Node
  | mk _ _ p => p

end Node

/-- The first statement of `rowCol`: the `id` of the parent for a text node
(`nodeType === 3`), of the node itself otherwise; the argument is `none` for
`null`, the result `none` for `undefined`.  Reading a property of `null` throws a
`TypeError`. -/
def idOfNode : Option Node → Completion (Option JSString)
  | none => Completion.error Abort.typeError
  | some node =>
    if node.nodeType = 3 then
      match node.parentNode with
      | none => Completion.error Abort.typeError
      | some parent => Completion.ok parent.id
    else Completion.ok node.id

/-- The function `rowCol(node)`.  Calling `split` on `undefined` throws a
`TypeError`.  The destructuring `[_, _, row, col] = id.split("-")` takes the third
and the fourth segment, `undefined` when there is none.  A missing segment and a
segment that is no numeric literal give `NaN`; only a literal whose value `JSNum`
does not hold ends the evaluation outside the model. -/
def rowCol (node : Option Node) : Completion Coord :=
  match idOfNode node with
  | Completion.error e => Completion.error e
  | Completion.ok none => Completion.error Abort.typeError
  | Completion.ok (some id) =>
    let segs := splitDash id
    match toNumber segs[2]?, toNumber segs[3]? with
    | some row, some col => Completion.ok (row, col)
    | _, _ => Completion.error Abort.outsideModel

/-! ## `modifyClipboard` -/

/-- The selection `window.getSelection()`, as far as it is read. -/
structure Selection where
  anchorNode : Option Node
  focusNode : Option Node

/-- The observable state of a clipboard event: the `(format, data)` pairs written
with `clipboardData.setData`, oldest first, and whether `preventDefault` was
called. -/
structure ClipboardEvent where
  written : List (JSString × JSString)
  defaultPrevented : Bool
  deriving DecidableEq, Repr

/-- The listener `modifyClipboard(event)`: the event as the listener leaves it, and
how the listener ends (`ok` for a normal return; after a `TypeError` or in a loop
without exit the event is as it was when the listener was entered, since both
calls on the event come last). -/
def modifyClipboard (doc : Document) (selection : Selection) (event : ClipboardEvent) :
    ClipboardEvent × Completion Unit :=
  match rowCol selection.anchorNode with
  | Completion.error e => (event, Completion.error e)
  | Completion.ok coord1 =>
    match rowCol selection.focusNode with
    | Completion.error e => (event, Completion.error e)
    | Completion.ok coord2 =>
      match fetchRows doc coord1 coord2 with
      | none => (event, Completion.error Abort.noExit)
      | some copied =>
        ({ written := event.written ++ [("text/plain".toList, copied)],
           defaultPrevented := true }, Completion.ok ())

/-- A document made of grid cells: `(row, col, text)` becomes the element with the
identifier of that cell. -/
def gridDoc (cells : List (Int × Int × String)) : Document :=
  cells.map (fun c => ⟨cellId (JSNum.int c.1) (JSNum.int c.2.1), c.2.2.toList⟩)

/-! ## Cells of the grid and the scan of a row -/

/-- The text content of the cell at `(row, col)`, `none` when the document has no
element with that cell's identifier. -/
def cellText (doc : Document) (row col : Int) : Option JSString :=
  (getElementById doc (cellId (JSNum.int row) (JSNum.int col))).map Element.textContent

/-- The `n` columns `lo, lo + 1, ...`. -/
def columnsFrom (lo : Int) (n : Nat) : List Int :=
  (List.range n).map (fun k : Nat => lo + (k : Int))

/-- The cells of `row` in column order from `lo`, over at most `n` columns, up to
the first missing cell. -/
def scannedCells (doc : Document) (row lo : Int) (n : Nat) : List JSString :=
  (((columnsFrom lo n).map (cellText doc row)).takeWhile Option.isSome).reduceOption

/-- The column at which `fetchCols` starts on `row`. -/
def scanStart (row row1 col1 : Int) : Int := if row = row1 then col1 else 1

/-- The number of columns the scan of `row` can reach from `lo`: on the end row up
to `col2` when that lies ahead, otherwise as far as cells exist, which is at most
the number of elements of the document. -/
def scanCount (doc : Document) (row lo row2 col2 : Int) : Nat :=
  if row = row2 ∧ lo ≤ col2 then (col2 + 1 - lo).toNat else doc.length + 1

/-- What a scanned cell stands for in the line: its trimmed content, one space when
that is empty. -/
def cellToken (text : JSString) : JSString :=
  if trim text = [] then [' '] else trim text

/-- The reference line of a list of scanned cells: each cell replaced by its token,
the trailing run of spaces that came from empty cells removed, all concatenated. -/
def referenceLine (cells : List JSString) : JSString :=
  (((cells.map cellToken).rdropWhile (fun t => decide (t = [' ']))).flatten)

/-- The cells the reference line of `row` is made of: from `start.col` on the start
row, else from column 1, up to the first missing cell or, on the end row, up to
`end.col` inclusive. -/
def referenceCells (doc : Document) (row row1 col1 row2 col2 : Int) : List JSString :=
  let lo := if row = row1 then col1 else 1
  if row = row2 then scannedCells doc row lo (col2 + 1 - lo).toNat
  else scannedCells doc row lo (doc.length + 1)

/-- The line `fetchCols` builds for `row` on integer coordinates: the reference line
of the cells it scans. -/
def rowLine (doc : Document) (row row1 col1 row2 col2 : Int) : JSString :=
  referenceLine (scannedCells doc row (scanStart row row1 col1)
    (scanCount doc row (scanStart row row1 col1) row2 col2))

/-- The text of a cell that holds a single character or is blank. -/
def SingleCharOrBlank (text : JSString) : Prop :=
  text.length ≤ 1 ∨ trim text = []

instance (text : JSString) : Decidable (SingleCharOrBlank text) := by
  unfold SingleCharOrBlank
  infer_instance

/-- Every cell of the grid holds a single character or is blank. -/
def SingleCharGrid (doc : Document) : Prop :=
  ∀ (row col : Int) (text : JSString), cellText doc row col = some text → SingleCharOrBlank text

/-! ## `sendPaste` -/

/-- The attribute list after `setAttribute(name, value)`: the value of an existing
attribute is replaced in place, a new attribute is added at the end. -/
def setAttribute : List (JSString × JSString) → JSString → JSString → List (JSString × JSString)
  | [], name, value => [(name, value)]
  | (n, v) :: rest, name, value =>
    if n = name then (n, value) :: rest else (n, v) :: setAttribute rest name value

/-- The value `getAttribute(name)` reads, `none` for an absent attribute. -/
def getAttribute : List (JSString × JSString) → JSString → Option JSString
  | [], _ => none
  | (n, v) :: rest, name => if n = name then some v else getAttribute rest name

/-- The relay element `exterm-paste-target`: its attributes, and for every `click()`
so far the attributes it carried when it was activated, oldest first (what the host
observes on activation). -/
structure Relay where
  attributes : List (JSString × JSString)
  activations : List (List (JSString × JSString))
  deriving DecidableEq, Repr

/-- The page as `sendPaste` meets it: the elements of the document, and the relay
that the constant `paste_target` holds (`none` for `null`). -/
structure Page where
  doc : Document
  pasteTarget : Option Relay
  deriving DecidableEq, Repr

/-- A paste event: the payload `clipboardData.getData("text/plain")` returns, and
whether `preventDefault` was called. -/
structure PasteEvent where
  plainText : JSString
  defaultPrevented : Bool
  deriving DecidableEq, Repr

/-- The listener `sendPaste(event)`: the page and the event as the listener leaves
them, and how it ends.  Calling `setAttribute` on `null` throws a `TypeError`. -/
def sendPaste (page : Page) (event : PasteEvent) : Page × PasteEvent × Completion Unit :=
  let paste_data := event.plainText
  match page.pasteTarget with
  | none => (page, event, Completion.error Abort.typeError)
  | some relay =>
    let relay1 : Relay :=
      { relay with attributes := setAttribute relay.attributes "phx-value-paste".toList paste_data }
    let relay2 : Relay := { relay1 with activations := relay1.activations ++ [relay1.attributes] }
    ({ page with pasteTarget := some relay2 }, { event with defaultPrevented := true },
      Completion.ok ())

/-! ## The key-down listeners -/

/-- A key-down event: whether `preventDefault` was called. -/
structure KeyEvent where
  defaultPrevented : Bool
  deriving DecidableEq, Repr

/-- The member names the program calls on an element. -/
inductive Member where
  | addEventListener
  | scroll
  | setAttribute
  | click
  | log
  deriving DecidableEq, Repr

/-- Whether an element of the document has a method of that name: `log` is a method
of the global `console` object, not of an element. -/
def elementHasMethod : Member → Bool
  | Member.log => false
  | _ => true

/-- The key-down listener registered on the element `exterm-console`.  In its body
`console` is the constant `const console = document.getElementById("exterm-console")`
of the enclosing `exterm:mounted` listener, so `console.log("hi mom")` calls the
member `log` of that element; calling a member that is `undefined` throws a
`TypeError`, and the statement `event.preventDefault()` after it is not reached. -/
def consoleKeydown (event : KeyEvent) : KeyEvent × Completion Unit :=
  if elementHasMethod Member.log then
    ({ event with defaultPrevented := true }, Completion.ok ())
  else (event, Completion.error Abort.typeError)

/-- The key-down listener registered on the root `exterm-terminal`. -/
def terminalKeydown (event : KeyEvent) : KeyEvent × Completion Unit :=
  ({ event with defaultPrevented := true }, Completion.ok ())

/-! ## Rows of a multi-row selection -/

/-- The cells of `row` from column `lo` to the end of its rendered cells (the first
missing cell). -/
def rowToEnd (doc : Document) (row lo : Int) : List JSString :=
  scannedCells doc row lo (doc.length + 1)

/-- The cells of `row` from column `lo` up to column `hi` inclusive, or up to the
first missing cell. -/
def rowUpTo (doc : Document) (row lo hi : Int) : List JSString :=
  scannedCells doc row lo (hi + 1 - lo).toNat

/-- The text of a selection over several rows: the first row from the start column
to its end, every row strictly between from column 1 to its end, the last row from
column 1 up to the end column, one line each, in increasing row order. -/
def multiRowText (doc : Document) (row1 col1 row2 col2 : Int) : JSString :=
  (referenceLine (rowToEnd doc row1 col1) ++ "\n".toList)
    ++ ((columnsFrom (row1 + 1) (row2 - row1 - 1).toNat).map
          (fun row => referenceLine (rowToEnd doc row 1) ++ "\n".toList)).flatten
    ++ (referenceLine (rowUpTo doc row2 1 col2) ++ "\n".toList)

/-! ## The states of the loop of `fetchCols` -/

/-- The states `(line, buffered_spaces)` of the loop of `fetchCols` after each
execution of its body, in order, from the state `(index, line, buffered_spaces)`;
the recursion is that of `fetchColsLoop`. -/
def fetchColsStates (doc : Document) (row row2 col2 : JSNum) :
    Nat → JSNum → JSString × Nat → List (JSString × Nat)
  | 0, _, _ => []
  | fuel + 1, index, st =>
    match getElementById doc (cellId row index) with
    | none => []
    | some element =>
      let st1 := emit st (trim element.textContent)
      if row.eq row2 && index.eq col2 then [st1]
      else st1 :: fetchColsStates doc row row2 col2 fuel index.succ st1

/-! ## The ambient bindings -/

/-- The bindings that the program assigns without declaring them (`_`, `row`, `col`
in `rowCol`, `element` in `fetchCols`, `copied` in `modifyClipboard`).  In a script
that is not in strict mode such an assignment creates or overwrites a property of
the global object, shared by all calls.  A field is `none` while nothing has been
assigned; inside, `none` is `undefined` for the segments and `null` for the
element. -/
structure Ambient where
  underscore : Option (Option JSString)
  row : Option (Option JSString)
  col : Option (Option JSString)
  element : Option (Option Element)
  copied : Option JSString
  deriving DecidableEq, Repr

/-- A result that may be missing because the loop does not exit, as a completion. -/
def Completion.ofOption {α : Type} : Option α → Completion α
  | some value => Completion.ok value
  | none => Completion.error Abort.noExit

/-- The function `rowCol(node)` with the ambient bindings it assigns and reads: the
destructuring assigns `_` twice, then `row` and `col`; the `return` reads `row` and
`col`.  Reading a binding that does not exist throws a `ReferenceError`. -/
def rowColAmbient (amb : Ambient) (node : Option Node) : Ambient × Completion Coord :=
  match idOfNode node with
  | Completion.error e => (amb, Completion.error e)
  | Completion.ok none => (amb, Completion.error Abort.typeError)
  | Completion.ok (some id) =>
    let segs := splitDash id
    let amb1 := { amb with underscore := some segs[0]? }
    let amb2 := { amb1 with underscore := some segs[1]? }
    let amb3 := { amb2 with row := some segs[2]? }
    let amb4 := { amb3 with col := some segs[3]? }
    match amb4.row, amb4.col with
    | some row, some col =>
      match toNumber row, toNumber col with
      | some r, some c => (amb4, Completion.ok (r, c))
      | _, _ => (amb4, Completion.error Abort.outsideModel)
    | _, _ => (amb4, Completion.error Abort.referenceError)

/-- The loop of `fetchCols` with the ambient binding `element`, which every
iteration assigns and then reads (the parameter `row` and the variables `index`,
`line`, `buffered_spaces`, `content` are local). -/
def fetchColsLoopAmbient (doc : Document) (row row2 col2 : JSNum) :
    Nat → Ambient → JSNum → JSString × Nat → Ambient × Completion JSString
  | 0, amb, _, _ => (amb, Completion.error Abort.noExit)
  | fuel + 1, amb, index, st =>
    let amb1 := { amb with element := some (getElementById doc (cellId row index)) }
    match amb1.element with
    | none => (amb1, Completion.error Abort.referenceError)
    | some none => (amb1, Completion.ok st.1)
    | some (some element) =>
      let st1 := emit st (trim element.textContent)
      if row.eq row2 && index.eq col2 then (amb1, Completion.ok st1.1)
      else fetchColsLoopAmbient doc row row2 col2 fuel amb1 index.succ st1

/-- The function `fetchCols` with the ambient bindings. -/
def fetchColsAmbient (doc : Document) (amb : Ambient) (row : JSNum) (start stop : Coord) :
    Ambient × Completion JSString :=
  let index := if row.eq start.1 then start.2 else JSNum.int 1
  match fetchColsLoopAmbient doc row stop.1 stop.2 (doc.length + 1) amb index ([], 0) with
  | (amb1, Completion.ok line) => (amb1, Completion.ok (line ++ "\n".toList))
  | (amb1, Completion.error e) => (amb1, Completion.error e)

/-- The `for` loop of `fetchRows` with the ambient bindings. -/
def fetchRowsLoopAmbient (doc : Document) (start stop : Coord) :
    List Int → Ambient → JSString → Ambient × Completion JSString
  | [], amb, result => (amb, Completion.ok result)
  | index :: rest, amb, result =>
    match fetchColsAmbient doc amb (JSNum.int index) start stop with
    | (amb1, Completion.error e) => (amb1, Completion.error e)
    | (amb1, Completion.ok line) => fetchRowsLoopAmbient doc start stop rest amb1 (result ++ line)

/-- The function `fetchRows` with the ambient bindings. -/
def fetchRowsAmbient (doc : Document) (amb : Ambient) (coord1 coord2 : Coord) :
    Ambient × Completion JSString :=
  let r := normalize coord1 coord2
  fetchRowsLoopAmbient doc r.1 r.2 (forRange r.1.1 r.2.1) amb []

/-- The copy pipeline `fetchRows(rowCol(anchorNode), rowCol(focusNode))` with the
ambient bindings: the anchor is resolved first and its coordinate pair is a fresh
array, then the focus, then the rows are fetched. -/
def copyPipelineAmbient (doc : Document) (amb : Ambient) (selection : Selection) :
    Ambient × Completion JSString :=
  match rowColAmbient amb selection.anchorNode with
  | (amb1, Completion.error e) => (amb1, Completion.error e)
  | (amb1, Completion.ok coord1) =>
    match rowColAmbient amb1 selection.focusNode with
    | (amb2, Completion.error e) => (amb2, Completion.error e)
    | (amb2, Completion.ok coord2) => fetchRowsAmbient doc amb2 coord1 coord2

/-- The listener `modifyClipboard(event)` with the ambient bindings: the text is
assigned to `copied`, which `setData` then reads. -/
def modifyClipboardAmbient (doc : Document) (amb : Ambient) (selection : Selection)
    (event : ClipboardEvent) : Ambient × ClipboardEvent × Completion Unit :=
  match copyPipelineAmbient doc amb selection with
  | (amb1, Completion.error e) => (amb1, event, Completion.error e)
  | (amb1, Completion.ok text) =>
    let amb2 := { amb1 with copied := some text }
    match amb2.copied with
    | none => (amb2, event, Completion.error Abort.referenceError)
    | some copied =>
      (amb2, { written := event.written ++ [("text/plain".toList, copied)],
               defaultPrevented := true }, Completion.ok ())

/-- The same pipeline without the ambient bindings, on the functions `rowCol` and
`fetchRows`. -/
def copyPipeline (doc : Document) (selection : Selection) : Completion JSString :=
  match rowCol selection.anchorNode with
  | Completion.error e => Completion.error e
  | Completion.ok coord1 =>
    match rowCol selection.focusNode with
    | Completion.error e => Completion.error e
    | Completion.ok coord2 => Completion.ofOption (fetchRows doc coord1 coord2)

/-! ## The range of exact arithmetic -/

/-- An integer in the range of exact arithmetic on which `index++` is exact. -/
def ExactStep (z : Int) : Prop := -exactLimit ≤ z ∧ z < exactLimit

instance (z : Int) : Decidable (ExactStep z) := by
  unfold ExactStep
  infer_instance

/-- A scan of a row of `doc` that starts at column `lo` stays in the range of exact
steps: it executes `index += 1` only on the columns of cells that exist, one after
the other from `lo`, which are at most as many as the document has elements; and
`buffered_spaces += 1` at most once for each of them, so that the document having
at most 2^53 elements keeps that counter exact too. -/
def ExactScan (doc : Document) (lo : Int) : Prop :=
  -exactLimit ≤ lo ∧ lo + (doc.length : Int) ≤ exactLimit ∧ (doc.length : Int) ≤ exactLimit

instance (doc : Document) (lo : Int) : Decidable (ExactScan doc lo) := by
  unfold ExactScan
  infer_instance

/-- The call `fetchCols(row, [row1, col1], [row2, col2])` on `doc` stays in the range
of exact arithmetic: its five numbers are in the range, and so is the scan from the
column where it starts. -/
def ExactFetchCols (doc : Document) (row row1 col1 row2 col2 : Int) : Prop :=
  ExactInt row ∧ ExactInt row1 ∧ ExactInt col1 ∧ ExactInt row2 ∧ ExactInt col2 ∧
    ExactScan doc (scanStart row row1 col1)

instance (doc : Document) (row row1 col1 row2 col2 : Int) :
    Decidable (ExactFetchCols doc row row1 col1 row2 col2) := by
  unfold ExactFetchCols
  infer_instance

/-- The call `fetchRows([r1, c1], [r2, c2])` on `doc` stays in the range of exact
arithmetic: `index++` is exact on both rows, hence on every row between, and the
scans from either column and from column 1 stay in the range. -/
def ExactFetchRows (doc : Document) (r1 c1 r2 c2 : Int) : Prop :=
  ExactStep r1 ∧ ExactStep r2 ∧ ExactScan doc c1 ∧ ExactScan doc c2 ∧ ExactScan doc 1

instance (doc : Document) (r1 c1 r2 c2 : Int) : Decidable (ExactFetchRows doc r1 c1 r2 c2) := by
  unfold ExactFetchRows
  infer_instance

/-- The values of `index` on which the loop of `fetchCols` executes `index += 1`, in
order; the recursion is that of `fetchColsLoop`. -/
def fetchColsIncrements (doc : Document) (row row2 col2 : JSNum) : Nat → JSNum → List JSNum
  | 0, _ => []
  | fuel + 1, index =>
    match getElementById doc (cellId row index) with
    | none => []
    | some _ =>
      if row.eq row2 && index.eq col2 then []
      else index :: fetchColsIncrements doc row row2 col2 fuel index.succ

/-! ## The length of a string -/

/-- The number of UTF-16 code units of a character, which is what it adds to the
`length` of a JavaScript string. -/
def utf16Size (c : Char) : Nat := if c.toNat < 0x10000 then 1 else 2

/-- The `length` of a JavaScript string: its number of UTF-16 code units. -/
def utf16Length (s : JSString) : Nat := (s.map utf16Size).sum

/-- The text of a cell that holds a single character, one UTF-16 code unit, or is
blank. -/
def SingleUnitOrBlank (text : JSString) : Prop :=
  utf16Length text ≤ 1 ∨ trim text = []

instance (text : JSString) : Decidable (SingleUnitOrBlank text) := by
  unfold SingleUnitOrBlank
  infer_instance

/-- Every cell of the grid holds a single character of one UTF-16 code unit or is
blank. -/
def SingleUnitGrid (doc : Document) : Prop :=
  ∀ (row col : Int) (text : JSString), cellText doc row col = some text → SingleUnitOrBlank text

/-! ## Decimal printing and reading -/

theorem charDigit_digitChar (d : Nat) (h : d < 10) : charDigit (digitChar d) = some d := by
  interval_cases d <;> decide

theorem digitChar_not_ws (d : Nat) : isWhiteSpace (digitChar d) = false := by
  unfold digitChar
  split <;> decide

theorem digitChar_ne_plus (d : Nat) : digitChar d ≠ '+' := by
  unfold digitChar
  split <;> decide

theorem digitChar_ne_minus (d : Nat) : digitChar d ≠ '-' := by
  unfold digitChar
  split <;> decide

theorem parseDigits_snoc (s : JSString) (c : Char) :
    parseDigits (s ++ [c]) =
      (parseDigits s).bind (fun a => (charDigit c).map (fun d => 10 * a + d)) := by
  simp [parseDigits, List.foldl_append]

theorem parseDigits_natDigits (fuel n : Nat) (h : n < fuel) :
    parseDigits (natDigits fuel n) = some n := by
  induction fuel generalizing n with
  | zero => omega
  | succ fuel ih =>
    unfold natDigits
    split
    · rename_i h10
      simp [parseDigits, charDigit_digitChar n h10]
    · rw [parseDigits_snoc, ih (n / 10) (by omega),
        charDigit_digitChar (n % 10) (Nat.mod_lt _ (by decide))]
      simp
      omega

theorem natDigits_ne_nil (fuel n : Nat) : natDigits (fuel + 1) n ≠ [] := by
  unfold natDigits
  split <;> simp

theorem natDigits_mem (fuel n : Nat) (c : Char) (h : c ∈ natDigits fuel n) :
    ∃ d, c = digitChar d := by
  induction fuel generalizing n with
  | zero => simp [natDigits] at h
  | succ fuel ih =>
    unfold natDigits at h
    split at h
    · exact ⟨n, by simpa using h⟩
    · rcases List.mem_append.1 h with h1 | h1
      · exact ih _ h1
      · exact ⟨n % 10, by simpa using h1⟩

/-! ## Trimming -/

theorem dropWhile_of_head (p : Char → Bool) (c : Char) (l : JSString) (h : p c = false) :
    (c :: l).dropWhile p = c :: l := by
  simp [List.dropWhile_cons, h]

theorem trim_snoc (s : JSString) (a b : Char) (ha : isWhiteSpace a = false)
    (hb : isWhiteSpace b = false) : trim (a :: (s ++ [b])) = a :: (s ++ [b]) := by
  unfold trim
  rw [dropWhile_of_head _ _ _ ha]
  have : (a :: (s ++ [b])).reverse = b :: (a :: s).reverse := by simp
  rw [this, dropWhile_of_head _ _ _ hb]
  simp

theorem trim_single (a : Char) (ha : isWhiteSpace a = false) : trim [a] = [a] := by
  simp [trim, List.dropWhile_cons, ha]

/-- A list whose first and last characters are no white space is its own trim. -/
theorem trim_eq_self (s : JSString) (h1 : ∀ c, s.head? = some c → isWhiteSpace c = false)
    (h2 : ∀ c, s.getLast? = some c → isWhiteSpace c = false) : trim s = s := by
  cases s with
  | nil => rfl
  | cons a t =>
    have ha := h1 a rfl
    rcases List.eq_nil_or_concat t with rfl | ⟨t1, b, rfl⟩
    · exact trim_single a ha
    · rw [List.concat_eq_append] at h2 ⊢
      have hb : isWhiteSpace b = false := by
        apply h2 b
        rw [← List.cons_append, List.getLast?_append]
        simp
      exact trim_snoc t1 a b ha hb

/-- The last character of a trimmed string is no white space. -/
theorem trim_getLast (s : JSString) (c : Char) (h : (trim s).getLast? = some c) :
    isWhiteSpace c = false := by
  unfold trim at h
  rw [List.getLast?_reverse] at h
  have := List.head?_dropWhile_not isWhiteSpace (s.dropWhile isWhiteSpace).reverse
  rw [h] at this
  simpa using this

theorem trim_ne_space (s : JSString) : trim s ≠ [' '] := by
  intro h
  have := trim_getLast s ' ' (by rw [h]; rfl)
  exact absurd this (by decide)

/-! ## Reading back a printed number -/

theorem natToString_head (n : Nat) (c : Char) (h : (natToString n).head? = some c) :
    ∃ d, c = digitChar d :=
  natDigits_mem (n + 1) n c (List.mem_of_mem_head? h)

theorem natToString_last (n : Nat) (c : Char) (h : (natToString n).getLast? = some c) :
    ∃ d, c = digitChar d :=
  natDigits_mem (n + 1) n c (List.mem_of_getLast?_eq_some h)

theorem trim_natToString (n : Nat) : trim (natToString n) = natToString n := by
  apply trim_eq_self
  · intro c h
    obtain ⟨d, rfl⟩ := natToString_head n c h
    exact digitChar_not_ws d
  · intro c h
    obtain ⟨d, rfl⟩ := natToString_last n c h
    exact digitChar_not_ws d

theorem parseUnsigned_natToString (n : Nat) : parseUnsigned (natToString n) = some n := by
  have hne : natToString n ≠ [] := natDigits_ne_nil n n
  unfold parseUnsigned
  rw [if_neg hne]
  exact parseDigits_natDigits (n + 1) n (by omega)

theorem trim_minus_natToString (n : Nat) :
    trim ('-' :: natToString n) = '-' :: natToString n := by
  apply trim_eq_self
  · intro c h
    simp at h
    subst h
    decide
  · intro c h
    have hne : natToString n ≠ [] := natDigits_ne_nil n n
    rw [List.getLast?_cons] at h
    cases hl : (natToString n).getLast? with
    | none => exact absurd (List.getLast?_eq_none_iff.1 hl) hne
    | some b =>
      rw [hl] at h
      simp at h
      subst h
      obtain ⟨d, rfl⟩ := natToString_last n b hl
      exact digitChar_not_ws d

theorem decimalInteger_natToString (n : Nat) :
    decimalInteger (natToString n) = some (n : Int) := by
  have hp := parseUnsigned_natToString n
  have hh := natToString_head n
  cases hs : natToString n with
  | nil => exact absurd hs (natDigits_ne_nil n n)
  | cons c cs =>
    rw [hs] at hp hh
    obtain ⟨d, hd⟩ := hh c rfl
    unfold decimalInteger
    split
    · rename_i heq
      cases heq
    · rename_i heq
      cases heq
      exact absurd hd.symm (digitChar_ne_plus d)
    · rename_i heq
      cases heq
      exact absurd hd.symm (digitChar_ne_minus d)
    · rw [hp]
      rfl

/-- The exact reading of a printed integer gives the integer back. -/
theorem decimalInteger_numToString (z : Int) :
    decimalInteger (numToString (JSNum.int z)) = some z := by
  cases z with
  | ofNat n => exact decimalInteger_natToString n
  | negSucc n =>
    show (parseUnsigned (natToString (n + 1))).map (fun n : Nat => -Int.ofNat n)
      = some (Int.negSucc n)
    rw [parseUnsigned_natToString]
    rfl

theorem toNumber_of_decimalInteger (s : JSString) (z : Int)
    (h : decimalInteger (trim s) = some z) (hz : ExactInt z) :
    toNumber (some s) = some (JSNum.int z) := by
  unfold toNumber
  simp only [h, hz, if_true]

/-- Reading the decimal expansion of a natural number up to 2^53 gives the number
back. -/
theorem toNumber_natToString (n : Nat) (hn : (n : Int) ≤ exactLimit) :
    toNumber (some (natToString n)) = some (JSNum.int n) := by
  apply toNumber_of_decimalInteger
  · rw [trim_natToString]
    exact decimalInteger_natToString n
  · constructor
    · have : (0 : Int) ≤ exactLimit := by decide
      omega
    · exact hn

theorem numToString_int_injective (a b : Int)
    (h : numToString (JSNum.int a) = numToString (JSNum.int b)) : a = b := by
  have ha := decimalInteger_numToString a
  rw [h, decimalInteger_numToString b] at ha
  simpa using ha.symm

theorem cellId_col_injective (row : JSNum) (a b : Int)
    (h : cellId row (JSNum.int a) = cellId row (JSNum.int b)) : a = b := by
  unfold cellId at h
  exact numToString_int_injective a b (List.append_cancel_left h)

/-! ## Every row of a finite document ends -/

theorem getElementById_mem (doc : Document) (id : JSString) (e : Element)
    (h : getElementById doc id = some e) : id ∈ doc.map Element.id := by
  unfold getElementById at h
  have h1 := List.mem_of_find?_eq_some h
  have h2 := List.find?_some h
  simp only [decide_eq_true_eq] at h2
  exact List.mem_map.2 ⟨e, h1, h2⟩

/-- Within `doc.length + 1` consecutive columns of a row one holds no cell. -/
theorem exists_missing_cell (doc : Document) (row lo : Int) :
    ∃ n : Nat, n ≤ doc.length ∧ cellText doc row (lo + (n : Int)) = none := by
  by_contra hcon
  have hall : ∀ n : Nat, n ≤ doc.length → cellText doc row (lo + (n : Int)) ≠ none := by
    intro n hn hc
    exact hcon ⟨n, hn, hc⟩
  let ids : List JSString :=
    (List.range (doc.length + 1)).map (fun k : Nat => cellId (JSNum.int row) (JSNum.int (lo + (k : Int))))
  have hnodup : ids.Nodup := by
    apply List.Nodup.map_on _ (List.nodup_range _)
    intro a _ b _ hab
    have := cellId_col_injective _ _ _ hab
    omega
  have hsub : ids ⊆ doc.map Element.id := by
    intro x hx
    obtain ⟨k, hk, rfl⟩ := List.mem_map.1 hx
    have hk1 : k ≤ doc.length := by
      have := List.mem_range.1 hk
      omega
    have hne := hall k hk1
    unfold cellText at hne
    cases hg : getElementById doc (cellId (JSNum.int row) (JSNum.int (lo + (k : Int)))) with
    | none => rw [hg] at hne; exact absurd rfl hne
    | some e => exact getElementById_mem doc _ e hg
  have hlen := (List.subperm_of_subset hnodup hsub).length_le
  simp [ids] at hlen

/-! ## The scan, column by column -/

theorem columnsFrom_succ (lo : Int) (n : Nat) :
    columnsFrom lo (n + 1) = lo :: columnsFrom (lo + 1) n := by
  unfold columnsFrom
  rw [List.range_succ_eq_map]
  simp only [List.map_cons, List.map_map, Nat.cast_zero, add_zero]
  congr 1
  apply List.map_congr_left
  intro k _
  simp only [Function.comp_apply, Nat.cast_succ]
  omega

theorem scannedCells_zero (doc : Document) (row lo : Int) : scannedCells doc row lo 0 = [] := by
  simp [scannedCells, columnsFrom]

theorem scannedCells_succ_none (doc : Document) (row lo : Int) (n : Nat)
    (h : cellText doc row lo = none) : scannedCells doc row lo (n + 1) = [] := by
  simp [scannedCells, columnsFrom_succ, List.takeWhile_cons, h]

theorem scannedCells_succ_some (doc : Document) (row lo : Int) (n : Nat) (t : JSString)
    (h : cellText doc row lo = some t) :
    scannedCells doc row lo (n + 1) = t :: scannedCells doc row (lo + 1) n := by
  simp [scannedCells, columnsFrom_succ, List.takeWhile_cons, h, List.reduceOption_cons_of_some]

theorem cellText_of_get (doc : Document) (row col : Int) (e : Element)
    (h : getElementById doc (cellId (JSNum.int row) (JSNum.int col)) = some e) :
    cellText doc row col = some e.textContent := by
  simp [cellText, h]

theorem cellText_of_get_none (doc : Document) (row col : Int)
    (h : getElementById doc (cellId (JSNum.int row) (JSNum.int col)) = none) :
    cellText doc row col = none := by
  simp [cellText, h]

/-- A loop that exits within a step budget returns the same line on any larger
budget. -/
theorem fetchColsLoop_fuel_mono (doc : Document) (row row2 col2 : JSNum) (fuel : Nat) :
    ∀ (index : JSNum) (st : JSString × Nat) (line : JSString) (extra : Nat),
      fetchColsLoop doc row row2 col2 fuel index st = some line →
      fetchColsLoop doc row row2 col2 (fuel + extra) index st = some line := by
  induction fuel with
  | zero =>
    intro index st line extra h
    simp [fetchColsLoop] at h
  | succ fuel ih =>
    intro index st line extra h
    have e : fuel + 1 + extra = (fuel + extra) + 1 := by omega
    rw [e]
    unfold fetchColsLoop at h ⊢
    cases hg : getElementById doc (cellId row index) with
    | none =>
      rw [hg] at h
      exact h
    | some element =>
      rw [hg] at h
      simp only at h ⊢
      split
      · rename_i hstop
        rw [if_pos hstop] at h
        exact h
      · rename_i hstop
        rw [if_neg hstop] at h
        exact ih _ _ line extra h

/-- The loop when a missing cell lies `n` columns ahead and the end of the range is
not met before it: the fold of `emit` over the scanned cells. -/
theorem fetchColsLoop_missing (doc : Document) (row : Int) (row2 col2 : JSNum) (n : Nat) :
    ∀ (lo : Int) (st : JSString × Nat) (fuel m : Nat), n < fuel → n < m →
      cellText doc row (lo + (n : Int)) = none →
      (∀ k : Nat, k < n →
        ((JSNum.int row).eq row2 && (JSNum.int (lo + (k : Int))).eq col2) = false) →
      fetchColsLoop doc (JSNum.int row) row2 col2 fuel (JSNum.int lo) st
        = some (List.foldl emit st ((scannedCells doc row lo m).map trim)).1 := by
  induction n with
  | zero =>
    intro lo st fuel m hf hm hmiss _
    obtain ⟨f, rfl⟩ : ∃ f, fuel = f + 1 := ⟨fuel - 1, by omega⟩
    obtain ⟨m1, rfl⟩ : ∃ m1, m = m1 + 1 := ⟨m - 1, by omega⟩
    simp only [Nat.cast_zero, add_zero] at hmiss
    rw [scannedCells_succ_none doc row lo m1 hmiss]
    unfold fetchColsLoop
    unfold cellText at hmiss
    cases hg : getElementById doc (cellId (JSNum.int row) (JSNum.int lo)) with
    | none => simp
    | some e => rw [hg] at hmiss; simp at hmiss
  | succ n ih =>
    intro lo st fuel m hf hm hmiss hstop
    obtain ⟨f, rfl⟩ : ∃ f, fuel = f + 1 := ⟨fuel - 1, by omega⟩
    obtain ⟨m1, rfl⟩ : ∃ m1, m = m1 + 1 := ⟨m - 1, by omega⟩
    unfold fetchColsLoop
    cases hg : getElementById doc (cellId (JSNum.int row) (JSNum.int lo)) with
    | none =>
      rw [scannedCells_succ_none doc row lo m1 (cellText_of_get_none doc row lo hg)]
      simp
    | some e =>
      rw [scannedCells_succ_some doc row lo m1 _ (cellText_of_get doc row lo e hg)]
      have h0 := hstop 0 (by omega)
      simp only [Nat.cast_zero, add_zero] at h0
      simp only [h0, Bool.false_eq_true, if_false, JSNum.succ, List.map_cons, List.foldl_cons]
      apply ih (lo + 1) _ f m1 (by omega) (by omega)
      · rw [← hmiss]
        congr 1
        push_cast
        omega
      · intro k hk
        have := hstop (k + 1) (by omega)
        rw [← this]
        congr 3
        push_cast
        omega

/-- The loop on the end row when the end column lies `n` columns ahead. -/
theorem fetchColsLoop_stop (doc : Document) (row : Int) (row2 : JSNum) (n : Nat) :
    ∀ (lo : Int) (st : JSString × Nat) (fuel : Nat), n < fuel →
      (JSNum.int row).eq row2 = true →
      fetchColsLoop doc (JSNum.int row) row2 (JSNum.int (lo + (n : Int))) fuel (JSNum.int lo) st
        = some (List.foldl emit st ((scannedCells doc row lo (n + 1)).map trim)).1 := by
  induction n with
  | zero =>
    intro lo st fuel hf hrow
    obtain ⟨f, rfl⟩ : ∃ f, fuel = f + 1 := ⟨fuel - 1, by omega⟩
    unfold fetchColsLoop
    cases hg : getElementById doc (cellId (JSNum.int row) (JSNum.int lo)) with
    | none =>
      rw [scannedCells_succ_none doc row lo 0 (cellText_of_get_none doc row lo hg)]
      simp
    | some e =>
      rw [scannedCells_succ_some doc row lo 0 _ (cellText_of_get doc row lo e hg)]
      have hself : (JSNum.int lo).eq (JSNum.int lo) = true := by simp [JSNum.eq]
      simp [hrow, hself, scannedCells_zero]
  | succ n ih =>
    intro lo st fuel hf hrow
    obtain ⟨f, rfl⟩ : ∃ f, fuel = f + 1 := ⟨fuel - 1, by omega⟩
    unfold fetchColsLoop
    cases hg : getElementById doc (cellId (JSNum.int row) (JSNum.int lo)) with
    | none =>
      rw [scannedCells_succ_none doc row lo (n + 1) (cellText_of_get_none doc row lo hg)]
      simp
    | some e =>
      rw [scannedCells_succ_some doc row lo (n + 1) _ (cellText_of_get doc row lo e hg)]
      have hne : (JSNum.int lo).eq (JSNum.int (lo + ((n + 1 : Nat) : Int))) = false := by
        simp only [JSNum.eq, decide_eq_false_iff_not]
        push_cast
        omega
      simp only [hne, Bool.and_false, Bool.false_eq_true, if_false, JSNum.succ, List.map_cons,
        List.foldl_cons]
      have h := ih (lo + 1) (emit st (trim e.textContent)) f (by omega) hrow
      have e1 : lo + 1 + (n : Int) = lo + ((n + 1 : Nat) : Int) := by
        push_cast
        omega
      rw [e1] at h
      exact h

/-! ## The scan stays in the range of exact steps -/

/-- When a missing cell lies `n` columns ahead of `lo`, every index on which the
loop executes `index += 1` lies from `lo` up to, and not including, that column. -/
theorem fetchColsIncrements_before_missing (doc : Document) (row : Int) (row2 col2 : JSNum)
    (fuel : Nat) :
    ∀ (lo : Int) (n : Nat), cellText doc row (lo + (n : Int)) = none →
      ∀ i ∈ fetchColsIncrements doc (JSNum.int row) row2 col2 fuel (JSNum.int lo),
        ∃ z : Int, i = JSNum.int z ∧ lo ≤ z ∧ z < lo + (n : Int) := by
  induction fuel with
  | zero =>
    intro lo n _ i hi
    simp [fetchColsIncrements] at hi
  | succ fuel ih =>
    intro lo n hmiss i hi
    unfold fetchColsIncrements at hi
    cases hg : getElementById doc (cellId (JSNum.int row) (JSNum.int lo)) with
    | none =>
      rw [hg] at hi
      simp at hi
    | some e =>
      rw [hg] at hi
      have hn : n ≠ 0 := by
        intro h0
        subst h0
        simp only [Nat.cast_zero, add_zero] at hmiss
        rw [cellText_of_get doc row lo e hg] at hmiss
        simp at hmiss
      obtain ⟨n1, rfl⟩ : ∃ n1, n = n1 + 1 := ⟨n - 1, by omega⟩
      simp only at hi
      split at hi
      · simp at hi
      · rcases List.mem_cons.1 hi with h1 | h1
        · exact ⟨lo, h1, le_refl lo, by push_cast; omega⟩
        · have hmiss1 : cellText doc row (lo + 1 + (n1 : Int)) = none := by
            rw [← hmiss]
            congr 1
            push_cast
            omega
          obtain ⟨z, hz, h2, h3⟩ := ih (lo + 1) n1 hmiss1 i h1
          exact ⟨z, hz, by omega, by push_cast; omega⟩

/-- Under `ExactScan` every `index += 1` that the loop of `fetchCols` executes is on
an integer index below 2^53 and not below -2^53, where the double addition of the
source is the integer addition of `JSNum.succ`. -/
theorem fetchColsIncrements_exact (doc : Document) (row lo : Int) (row2 col2 : JSNum)
    (fuel : Nat) (hscan : ExactScan doc lo) :
    ∀ i ∈ fetchColsIncrements doc (JSNum.int row) row2 col2 fuel (JSNum.int lo),
      ∃ z : Int, i = JSNum.int z ∧ ExactStep z := by
  intro i hi
  obtain ⟨n, hn, hmiss⟩ := exists_missing_cell doc row lo
  obtain ⟨z, hz, h1, h2⟩ :=
    fetchColsIncrements_before_missing doc row row2 col2 fuel lo n hmiss i hi
  obtain ⟨hlo, hhi, _⟩ := hscan
  exact ⟨z, hz, by omega, by omega⟩

/-! ## The fold of `emit` is the reference line -/

theorem spaces_succ (n : Nat) : spaces (n + 1) = spaces n ++ [' '] := by
  simp [spaces, List.replicate_succ']

/-- After any list of cells, `line` is the reference line of the cells and `line`
followed by the buffered spaces is the concatenation of all the tokens. -/
theorem foldl_emit_spec (cells : List JSString) :
    (List.foldl emit ([], 0) (cells.map trim)).1 = referenceLine cells ∧
    (List.foldl emit ([], 0) (cells.map trim)).1
        ++ spaces (List.foldl emit ([], 0) (cells.map trim)).2
      = (cells.map cellToken).flatten := by
  induction cells using List.reverseRecOn with
  | nil => simp [referenceLine, spaces]
  | append_singleton l a ih =>
    obtain ⟨ih1, ih2⟩ := ih
    simp only [List.map_append, List.map_cons, List.map_nil, List.foldl_append, List.foldl_cons,
      List.foldl_nil, referenceLine]
    by_cases ha : trim a = []
    · have htok : cellToken a = [' '] := by simp [cellToken, ha]
      have hem : ∀ st : JSString × Nat, emit st (trim a) = (st.1, st.2 + 1) := by
        intro st
        simp [emit, ha]
      rw [hem, htok]
      constructor
      · rw [List.rdropWhile_concat_pos _ _ _ (by simp)]
        exact ih1
      · simp only [spaces_succ, List.flatten_append, List.flatten_cons, List.flatten_nil,
          List.append_nil]
        rw [← List.append_assoc, ih2]
    · have htok : cellToken a = trim a := by simp [cellToken, ha]
      have hem : ∀ st : JSString × Nat,
          emit st (trim a) = (st.1 ++ (spaces st.2 ++ trim a), 0) := by
        intro st
        simp [emit, ha]
      rw [hem, htok]
      have hflat : (List.map cellToken l ++ [trim a]).flatten
          = (List.foldl emit ([], 0) (List.map trim l)).1
            ++ (spaces (List.foldl emit ([], 0) (List.map trim l)).2 ++ trim a) := by
        simp only [List.flatten_append, List.flatten_cons, List.flatten_nil, List.append_nil]
        rw [← List.append_assoc, ih2]
      constructor
      · rw [List.rdropWhile_concat_neg _ _ _ (by simpa using trim_ne_space a)]
        exact hflat.symm
      · simp only [spaces, List.replicate_zero, List.append_nil]
        exact hflat.symm

/-! ## `fetchCols` on integer coordinates -/

theorem fetchCols_start (doc : Document) (row row1 col1 : Int) (stop : Coord) :
    fetchCols doc (JSNum.int row) (JSNum.int row1, JSNum.int col1) stop =
      (fetchColsLoop doc (JSNum.int row) stop.1 stop.2 (doc.length + 1)
        (JSNum.int (scanStart row row1 col1)) ([], 0)).map (fun line => line ++ "\n".toList) := by
  unfold fetchCols scanStart
  by_cases h : row = row1
  · simp [JSNum.eq, h]
  · simp [JSNum.eq, h]

/-- The loop of `fetchCols` on integer coordinates exits within its step budget and
returns the fold of `emit` over the scanned cells. -/
theorem fetchColsLoop_int (doc : Document) (row lo row2 col2 : Int) (st : JSString × Nat) :
    fetchColsLoop doc (JSNum.int row) (JSNum.int row2) (JSNum.int col2) (doc.length + 1)
        (JSNum.int lo) st
      = some (List.foldl emit st
          ((scannedCells doc row lo (scanCount doc row lo row2 col2)).map trim)).1 := by
  obtain ⟨n, hn, hmiss⟩ := exists_missing_cell doc row lo
  unfold scanCount
  by_cases hend : row = row2 ∧ lo ≤ col2
  · rw [if_pos hend]
    obtain ⟨hrow, hle⟩ := hend
    by_cases hreach : lo + (n : Int) ≤ col2
    · apply fetchColsLoop_missing doc row _ _ n lo st _ _ (by omega) (by omega) hmiss
      intro k hk
      have : (JSNum.int (lo + (k : Int))).eq (JSNum.int col2) = false := by
        simp only [JSNum.eq, decide_eq_false_iff_not]
        omega
      simp [this]
    · have hrow2 : (JSNum.int row).eq (JSNum.int row2) = true := by simp [JSNum.eq, hrow]
      have h := fetchColsLoop_stop doc row (JSNum.int row2) (col2 - lo).toNat lo st
        (doc.length + 1) (by omega) hrow2
      have e1 : lo + (((col2 - lo).toNat : Nat) : Int) = col2 := by omega
      have e2 : (col2 - lo).toNat + 1 = (col2 + 1 - lo).toNat := by omega
      rw [e1, e2] at h
      exact h
  · rw [if_neg hend]
    apply fetchColsLoop_missing doc row _ _ n lo st _ _ (by omega) (by omega) hmiss
    intro k _
    by_cases hrow : row = row2
    · have : (JSNum.int (lo + (k : Int))).eq (JSNum.int col2) = false := by
        simp only [JSNum.eq, decide_eq_false_iff_not]
        have := fun h => hend ⟨hrow, h⟩
        omega
      simp [this]
    · simp [JSNum.eq, hrow]

/-- On integer coordinates `fetchCols` returns the reference line of the cells it
scans, followed by a newline. -/
theorem fetchCols_int (doc : Document) (row row1 col1 row2 col2 : Int) :
    fetchCols doc (JSNum.int row) (JSNum.int row1, JSNum.int col1) (JSNum.int row2, JSNum.int col2)
      = some (referenceLine (scannedCells doc row (scanStart row row1 col1)
          (scanCount doc row (scanStart row row1 col1) row2 col2)) ++ "\n".toList) := by
  rw [fetchCols_start, fetchColsLoop_int, (foldl_emit_spec _).1]
  rfl

/-! ## Claims about `fetchCols` -/

theorem referenceCells_eq (doc : Document) (row row1 col1 row2 col2 : Int)
    (hnorm : row1 < row2 ∨ (row1 = row2 ∧ col1 ≤ col2)) (hcol : 1 ≤ col2) :
    referenceCells doc row row1 col1 row2 col2
      = scannedCells doc row (scanStart row row1 col1)
          (scanCount doc row (scanStart row row1 col1) row2 col2) := by
  unfold referenceCells scanCount scanStart
  by_cases h2 : row = row2
  · have hlo : (if row = row1 then col1 else 1) ≤ col2 := by
      split
      · omega
      · exact hcol
    simp only [h2, if_true, true_and]
    rw [← h2, if_pos hlo]
  · simp [h2]

/-- C1: on a normalized range with a positive end column, in the range of exact
arithmetic (`ExactFetchCols`: the numbers are integers up to 2^53 and the scan
stays below 2^53), `fetchCols` returns the
reference line of the row followed by a newline: the cells scanned in column order
(from the start column on the start row, else from column 1, up to the first
missing cell or, on the end row, up to the end column inclusive), each replaced by
its trimmed content or by one space when that is empty, concatenated, without the
trailing spaces that came from empty cells. -/
theorem fetchCols_reference_line (doc : Document) (row row1 col1 row2 col2 : Int)
    (hnorm : row1 < row2 ∨ (row1 = row2 ∧ col1 ≤ col2)) (hcol : 1 ≤ col2)
    (_hexact : ExactFetchCols doc row row1 col1 row2 col2) :
    fetchCols doc (JSNum.int row) (JSNum.int row1, JSNum.int col1)
        (JSNum.int row2, JSNum.int col2)
      = some (referenceLine (referenceCells doc row row1 col1 row2 col2) ++ "\n".toList) := by
  rw [referenceCells_eq doc row row1 col1 row2 col2 hnorm hcol]
  exact fetchCols_int doc row row1 col1 row2 col2

/-- C1, the two examples of the specification: `"foo   !\n"` for row 5 over columns
1 to 7, and `"AB  C"` for a row with two empty cells inside. -/
theorem fetchCols_reference_line_witness :
    ((5 : Int) < 5 ∨ ((5 : Int) = 5 ∧ (1 : Int) ≤ 7)) ∧ (1 : Int) ≤ 7 ∧
    ExactFetchCols (gridDoc [(5, 1, "f"), (5, 2, "o"), (5, 3, "o"), (5, 4, ""), (5, 5, " "),
        (5, 6, ""), (5, 7, "!")]) 5 5 1 5 7 ∧
    fetchCols (gridDoc [(5, 1, "f"), (5, 2, "o"), (5, 3, "o"), (5, 4, ""), (5, 5, " "),
        (5, 6, ""), (5, 7, "!")]) (JSNum.int 5) (JSNum.int 5, JSNum.int 1)
        (JSNum.int 5, JSNum.int 7) = some "foo   !\n".toList ∧
    fetchCols (gridDoc [(2, 1, "A"), (2, 2, "B"), (2, 3, ""), (2, 4, ""), (2, 5, "C")])
        (JSNum.int 2) (JSNum.int 2, JSNum.int 1) (JSNum.int 2, JSNum.int 5)
      = some "AB  C\n".toList :=
  ⟨by decide, by decide, by decide,
    (fetchCols_reference_line _ 5 5 1 5 7 (by decide) (by decide) (by decide)).trans
      (by decide),
    (fetchCols_reference_line _ 2 2 1 2 5 (by decide) (by decide) (by decide)).trans
      (by decide)⟩

/-- The line built by the fold never ends in white space. -/
theorem foldl_emit_last (cells : List JSString) (c : Char)
    (h : (List.foldl emit ([], 0) (cells.map trim)).1.getLast? = some c) :
    isWhiteSpace c = false := by
  induction cells using List.reverseRecOn with
  | nil => simp at h
  | append_singleton l a ih =>
    simp only [List.map_append, List.map_cons, List.map_nil, List.foldl_append, List.foldl_cons,
      List.foldl_nil] at h
    by_cases ha : trim a = []
    · apply ih
      simpa [emit, ha] using h
    · simp only [emit, ha, if_false] at h
      rw [← List.append_assoc, List.getLast?_append] at h
      cases hl : (trim a).getLast? with
      | none => exact absurd (List.getLast?_eq_none_iff.1 hl) ha
      | some b =>
        rw [hl] at h
        simp at h
        subst h
        exact trim_getLast a b hl

theorem referenceLine_last (cells : List JSString) :
    (referenceLine cells).getLast? ≠ some ' ' := by
  intro h
  rw [← (foldl_emit_spec cells).1] at h
  exact absurd (foldl_emit_last cells ' ' h) (by decide)

/-- Removing the trailing space tokens is removing the trailing empty cells. -/
theorem rdropWhile_cellToken (cells : List JSString) :
    (cells.map cellToken).rdropWhile (fun t => decide (t = [' ']))
      = (cells.rdropWhile (fun t => decide (trim t = []))).map cellToken := by
  induction cells using List.reverseRecOn with
  | nil => simp
  | append_singleton l a ih =>
    simp only [List.map_append, List.map_cons, List.map_nil]
    by_cases ha : trim a = []
    · rw [List.rdropWhile_concat_pos _ _ _ (by simp [cellToken, ha]),
        List.rdropWhile_concat_pos _ _ _ (by simp [ha])]
      exact ih
    · rw [List.rdropWhile_concat_neg _ _ _ (by simpa [cellToken, ha] using trim_ne_space a),
        List.rdropWhile_concat_neg _ _ _ (by simp [ha])]
      simp

theorem referenceLine_eq_nil (cells : List JSString) (h : ∀ t ∈ cells, trim t = []) :
    referenceLine cells = [] := by
  unfold referenceLine
  rw [rdropWhile_cellToken]
  have : cells.rdropWhile (fun t => decide (trim t = [])) = [] := by
    rw [List.rdropWhile_eq_nil_iff]
    intro x hx
    simpa using h x hx
  rw [this]
  rfl

/-- C2: `fetchCols` emits no space that is not followed by content.  For all integer
coordinates in the range of exact arithmetic (`ExactFetchCols`) the returned text
is a line followed by a newline, where the line does not end in a space, is the
concatenation of the tokens of the scanned cells up to the last non-empty one (the
empty cells after it contribute nothing), and is empty when every scanned cell is
empty; and content at columns 1 to 3 with empty cells at
columns 4 to 10 and end column 10 gives the line `"ABC"`. -/
theorem fetchCols_no_trailing_space :
    (∀ (doc : Document) (row row1 col1 row2 col2 : Int),
      ExactFetchCols doc row row1 col1 row2 col2 →
      ∃ line : JSString,
        fetchCols doc (JSNum.int row) (JSNum.int row1, JSNum.int col1)
          (JSNum.int row2, JSNum.int col2) = some (line ++ "\n".toList) ∧
        line.getLast? ≠ some ' ' ∧
        line = (((scannedCells doc row (scanStart row row1 col1)
            (scanCount doc row (scanStart row row1 col1) row2 col2)).rdropWhile
              (fun t => decide (trim t = []))).map cellToken).flatten ∧
        ((∀ t ∈ scannedCells doc row (scanStart row row1 col1)
            (scanCount doc row (scanStart row row1 col1) row2 col2), trim t = []) →
          fetchCols doc (JSNum.int row) (JSNum.int row1, JSNum.int col1)
            (JSNum.int row2, JSNum.int col2) = some "\n".toList)) ∧
    fetchCols (gridDoc [(1, 1, "A"), (1, 2, "B"), (1, 3, "C"), (1, 4, ""), (1, 5, " "),
        (1, 6, ""), (1, 7, ""), (1, 8, " "), (1, 9, ""), (1, 10, "")])
        (JSNum.int 1) (JSNum.int 1, JSNum.int 1) (JSNum.int 1, JSNum.int 10)
      = some "ABC\n".toList := by
  refine ⟨?_, by decide⟩
  intro doc row row1 col1 row2 col2 _
  refine ⟨_, fetchCols_int doc row row1 col1 row2 col2, referenceLine_last _, ?_, ?_⟩
  · unfold referenceLine
    rw [rdropWhile_cellToken]
  · intro h
    rw [fetchCols_int, referenceLine_eq_nil _ h]
    rfl

/-- C2 on a row of three blank cells: every scanned cell is empty, the text is
`"\n"`. -/
theorem fetchCols_no_trailing_space_witness :
    ExactFetchCols (gridDoc [(1, 1, ""), (1, 2, " "), (1, 3, "")]) 1 1 1 1 3 ∧
    (∀ t ∈ scannedCells (gridDoc [(1, 1, ""), (1, 2, " "), (1, 3, "")]) 1 (scanStart 1 1 1)
        (scanCount (gridDoc [(1, 1, ""), (1, 2, " "), (1, 3, "")]) 1 (scanStart 1 1 1) 1 3),
      trim t = []) ∧
    fetchCols (gridDoc [(1, 1, ""), (1, 2, " "), (1, 3, "")]) (JSNum.int 1)
      (JSNum.int 1, JSNum.int 1) (JSNum.int 1, JSNum.int 3) = some "\n".toList :=
  ⟨by decide, by decide,
    (fetchCols_no_trailing_space.1 (gridDoc [(1, 1, ""), (1, 2, " "), (1, 3, "")])
      1 1 1 1 3 (by decide)).elim (fun _ h => h.2.2.2 (by decide))⟩

/-! ## Claims about `fetchRows` -/

theorem JSNum.lt_int (a b : Int) : (JSNum.int a).lt (JSNum.int b) = decide (a < b) := rfl

theorem JSNum.eq_int (a b : Int) : (JSNum.int a).eq (JSNum.int b) = decide (a = b) := rfl

theorem forRange_single (row : Int) : forRange (JSNum.int row) (JSNum.int row) = [row] := by
  have h : (row + 1 - row).toNat = 1 := by omega
  simp [forRange, h, List.range_succ]

theorem normalize_same_row (row col1 col2 : Int) (h : col1 ≤ col2) :
    normalize (JSNum.int row, JSNum.int col1) (JSNum.int row, JSNum.int col2)
      = ((JSNum.int row, JSNum.int col1), (JSNum.int row, JSNum.int col2)) ∧
    normalize (JSNum.int row, JSNum.int col2) (JSNum.int row, JSNum.int col1)
      = ((JSNum.int row, JSNum.int col1), (JSNum.int row, JSNum.int col2)) := by
  unfold normalize
  simp only [JSNum.lt_int, JSNum.eq_int, lt_self_iff_false, decide_False, Bool.false_eq_true,
    if_false, decide_True, if_true, decide_eq_true_eq]
  rcases lt_or_eq_of_le h with hlt | heq
  · simp [hlt, not_lt.2 h]
  · simp [heq]

theorem scannedCells_congr (doc1 doc2 : Document) (row lo : Int) (n : Nat)
    (h : ∀ k : Nat, k < n → cellText doc1 row (lo + (k : Int)) = cellText doc2 row (lo + (k : Int))) :
    scannedCells doc1 row lo n = scannedCells doc2 row lo n := by
  unfold scannedCells columnsFrom
  congr 2
  simp only [List.map_map]
  apply List.map_congr_left
  intro k hk
  exact h k (List.mem_range.1 hk)

/-- The text of a selection inside one row. -/
theorem fetchRows_same_row (doc : Document) (row col1 col2 : Int) (h : col1 ≤ col2) :
    fetchRows doc (JSNum.int row, JSNum.int col1) (JSNum.int row, JSNum.int col2)
      = some (referenceLine (scannedCells doc row col1 (col2 + 1 - col1).toNat) ++ "\n".toList) ∧
    fetchRows doc (JSNum.int row, JSNum.int col2) (JSNum.int row, JSNum.int col1)
      = some (referenceLine (scannedCells doc row col1 (col2 + 1 - col1).toNat) ++ "\n".toList) := by
  obtain ⟨h1, h2⟩ := normalize_same_row row col1 col2 h
  have key : fetchRowsLoop doc (JSNum.int row, JSNum.int col1) (JSNum.int row, JSNum.int col2)
      [row] [] = some (referenceLine (scannedCells doc row col1 (col2 + 1 - col1).toNat)
        ++ "\n".toList) := by
    unfold fetchRowsLoop
    rw [fetchCols_int]
    simp [fetchRowsLoop, scanStart, scanCount, h]
  unfold fetchRows
  rw [h1, h2]
  simp only [forRange_single]
  exact ⟨key, key⟩

/-- C3: the text of a single-row selection `(row, col1)`-`(row, col2)` with
`col1 ≤ col2` depends only on the cells of that row in columns `col1..col2`: two
documents that agree on these cells give the same text, in either drag direction,
whatever they hold in other columns and rows. -/
theorem fetchRows_bounds (doc1 doc2 : Document) (row col1 col2 : Int) (hle : col1 ≤ col2)
    (hagree : ∀ col : Int, col1 ≤ col → col ≤ col2 → cellText doc1 row col = cellText doc2 row col) :
    fetchRows doc1 (JSNum.int row, JSNum.int col1) (JSNum.int row, JSNum.int col2)
      = fetchRows doc2 (JSNum.int row, JSNum.int col1) (JSNum.int row, JSNum.int col2) ∧
    fetchRows doc1 (JSNum.int row, JSNum.int col2) (JSNum.int row, JSNum.int col1)
      = fetchRows doc2 (JSNum.int row, JSNum.int col2) (JSNum.int row, JSNum.int col1) := by
  have hs : scannedCells doc1 row col1 (col2 + 1 - col1).toNat
      = scannedCells doc2 row col1 (col2 + 1 - col1).toNat := by
    apply scannedCells_congr
    intro k hk
    exact hagree _ (by omega) (by omega)
  obtain ⟨a1, a2⟩ := fetchRows_same_row doc1 row col1 col2 hle
  obtain ⟨b1, b2⟩ := fetchRows_same_row doc2 row col1 col2 hle
  rw [a1, a2, b1, b2, hs]
  exact ⟨rfl, rfl⟩

/-- C3 at the range `(2,3)`-`(2,7)`: a document with content all over rows 1 to 3 and
one that keeps only columns 3 to 7 of row 2 give the same text, `"cdefg\n"`. -/
theorem fetchRows_bounds_witness :
    (3 : Int) ≤ 7 ∧
    fetchRows (gridDoc [(1, 3, "x"), (2, 1, "a"), (2, 2, "b"), (2, 3, "c"), (2, 4, "d"),
        (2, 5, "e"), (2, 6, "f"), (2, 7, "g"), (2, 8, "h"), (2, 9, "i"), (3, 3, "y")])
        (JSNum.int 2, JSNum.int 3) (JSNum.int 2, JSNum.int 7)
      = fetchRows (gridDoc [(2, 3, "c"), (2, 4, "d"), (2, 5, "e"), (2, 6, "f"), (2, 7, "g")])
        (JSNum.int 2, JSNum.int 3) (JSNum.int 2, JSNum.int 7) ∧
    fetchRows (gridDoc [(2, 3, "c"), (2, 4, "d"), (2, 5, "e"), (2, 6, "f"), (2, 7, "g")])
        (JSNum.int 2, JSNum.int 3) (JSNum.int 2, JSNum.int 7) = some "cdefg\n".toList :=
  ⟨by decide,
    (fetchRows_bounds _ _ 2 3 7 (by decide) (by
      intro col h1 h2
      interval_cases col <;> decide)).1,
    by decide⟩

theorem normalize_int_symm (r1 c1 r2 c2 : Int) :
    normalize (JSNum.int r1, JSNum.int c1) (JSNum.int r2, JSNum.int c2)
      = normalize (JSNum.int r2, JSNum.int c2) (JSNum.int r1, JSNum.int c1) := by
  unfold normalize
  simp only [JSNum.lt_int, JSNum.eq_int, decide_eq_true_eq]
  rcases lt_trichotomy r1 r2 with h | h | h
  · simp [h, not_lt.2 (le_of_lt h), ne_of_gt h, ne_of_lt h]
  · subst h
    rcases lt_trichotomy c1 c2 with hc | hc | hc
    · simp [hc, not_lt.2 (le_of_lt hc)]
    · subst hc
      simp
    · simp [hc, not_lt.2 (le_of_lt hc)]
  · simp [h, not_lt.2 (le_of_lt h), ne_of_gt h, ne_of_lt h]

/-- C4: range normalization is symmetric on integer coordinates: the `(start, end)`
pair computed from `(a, b)` is the pair computed from `(b, a)`, and so the text
`fetchRows` returns does not depend on the drag direction. -/
theorem normalize_symmetric (doc : Document) (r1 c1 r2 c2 : Int) :
    normalize (JSNum.int r1, JSNum.int c1) (JSNum.int r2, JSNum.int c2)
      = normalize (JSNum.int r2, JSNum.int c2) (JSNum.int r1, JSNum.int c1) ∧
    fetchRows doc (JSNum.int r1, JSNum.int c1) (JSNum.int r2, JSNum.int c2)
      = fetchRows doc (JSNum.int r2, JSNum.int c2) (JSNum.int r1, JSNum.int c1) := by
  refine ⟨normalize_int_symm r1 c1 r2 c2, ?_⟩
  unfold fetchRows
  rw [normalize_int_symm r1 c1 r2 c2]

/-- The ordered pair on integer coordinates: one of the two orders of the inputs,
the start not after the end in row-major order. -/
theorem normalize_int (r1 c1 r2 c2 : Int) :
    ∃ sr sc er ec : Int,
      normalize (JSNum.int r1, JSNum.int c1) (JSNum.int r2, JSNum.int c2)
        = ((JSNum.int sr, JSNum.int sc), (JSNum.int er, JSNum.int ec)) ∧
      ((sr = r1 ∧ sc = c1 ∧ er = r2 ∧ ec = c2) ∨ (sr = r2 ∧ sc = c2 ∧ er = r1 ∧ ec = c1)) ∧
      (sr < er ∨ (sr = er ∧ sc ≤ ec)) := by
  unfold normalize
  simp only [JSNum.lt_int, JSNum.eq_int, decide_eq_true_eq]
  by_cases h1 : r1 < r2
  · exact ⟨r1, c1, r2, c2, by simp [h1], Or.inl ⟨rfl, rfl, rfl, rfl⟩, Or.inl h1⟩
  · by_cases h2 : r1 = r2
    · by_cases h3 : c1 < c2
      · exact ⟨r1, c1, r2, c2, by simp [h2, h3], Or.inl ⟨rfl, rfl, rfl, rfl⟩,
          Or.inr ⟨h2, le_of_lt h3⟩⟩
      · exact ⟨r2, c2, r1, c1, by simp [h2, h3], Or.inr ⟨rfl, rfl, rfl, rfl⟩,
          Or.inr ⟨h2.symm, not_lt.1 h3⟩⟩
    · exact ⟨r2, c2, r1, c1, by simp [h1, h2], Or.inr ⟨rfl, rfl, rfl, rfl⟩,
        Or.inl (by omega)⟩

/-- C5: range normalization orders its inputs.  On integer coordinates the pair
`(start, end)` that `fetchRows` computes is a reordering of anchor and focus with
`start` before or equal to `end` in row-major order, and it is the range with which
`fetchRows` runs its loop over the rows, so every call of `fetchCols` receives it. -/
theorem normalize_orders (doc : Document) (r1 c1 r2 c2 : Int) :
    ∃ sr sc er ec : Int,
      normalize (JSNum.int r1, JSNum.int c1) (JSNum.int r2, JSNum.int c2)
        = ((JSNum.int sr, JSNum.int sc), (JSNum.int er, JSNum.int ec)) ∧
      ((sr = r1 ∧ sc = c1 ∧ er = r2 ∧ ec = c2) ∨ (sr = r2 ∧ sc = c2 ∧ er = r1 ∧ ec = c1)) ∧
      (sr < er ∨ (sr = er ∧ sc ≤ ec)) ∧
      fetchRows doc (JSNum.int r1, JSNum.int c1) (JSNum.int r2, JSNum.int c2)
        = fetchRowsLoop doc (JSNum.int sr, JSNum.int sc) (JSNum.int er, JSNum.int ec)
            (forRange (JSNum.int sr) (JSNum.int er)) [] := by
  obtain ⟨sr, sc, er, ec, hn, hperm, hord⟩ := normalize_int r1 c1 r2 c2
  refine ⟨sr, sc, er, ec, hn, hperm, hord, ?_⟩
  unfold fetchRows
  rw [hn]

/-- The loop of `fetchRows` on integer coordinates appends one line and a newline
per row, in the order of the rows. -/
theorem fetchRowsLoop_int (doc : Document) (row1 col1 row2 col2 : Int) (rows : List Int) :
    ∀ result : JSString,
      fetchRowsLoop doc (JSNum.int row1, JSNum.int col1) (JSNum.int row2, JSNum.int col2)
          rows result
        = some (result ++ (rows.map
            (fun row => rowLine doc row row1 col1 row2 col2 ++ "\n".toList)).flatten) := by
  induction rows with
  | nil =>
    intro result
    simp [fetchRowsLoop]
  | cons row rest ih =>
    intro result
    unfold fetchRowsLoop
    rw [fetchCols_int]
    simp only [ih, List.map_cons, List.flatten_cons, List.append_assoc]
    rfl

theorem scannedCells_mem (doc : Document) (row : Int) (n : Nat) :
    ∀ (lo : Int) (t : JSString), t ∈ scannedCells doc row lo n →
      ∃ col : Int, cellText doc row col = some t := by
  induction n with
  | zero =>
    intro lo t h
    simp [scannedCells_zero] at h
  | succ n ih =>
    intro lo t h
    cases hg : getElementById doc (cellId (JSNum.int row) (JSNum.int lo)) with
    | none =>
      rw [scannedCells_succ_none doc row lo n (cellText_of_get_none doc row lo hg)] at h
      simp at h
    | some e =>
      rw [scannedCells_succ_some doc row lo n _ (cellText_of_get doc row lo e hg)] at h
      rcases List.mem_cons.1 h with h1 | h1
      · exact ⟨lo, h1 ▸ cellText_of_get doc row lo e hg⟩
      · exact ih (lo + 1) t h1

theorem trim_length_le (s : JSString) : (trim s).length ≤ s.length := by
  unfold trim
  rw [List.length_reverse]
  calc ((s.dropWhile isWhiteSpace).reverse.dropWhile isWhiteSpace).length
      ≤ (s.dropWhile isWhiteSpace).reverse.length := (List.dropWhile_sublist _).length_le
    _ = (s.dropWhile isWhiteSpace).length := List.length_reverse _
    _ ≤ s.length := (List.dropWhile_sublist _).length_le

/-- The trimmed content of a single-character or blank cell holds no newline. -/
theorem trim_no_newline (text : JSString) (h : SingleCharOrBlank text) :
    '\n' ∉ trim text := by
  intro hmem
  have hlen : (trim text).length ≤ 1 := by
    rcases h with h | h
    · exact le_trans (trim_length_le _) h
    · simp [h]
  cases ht : trim text with
  | nil => rw [ht] at hmem; simp at hmem
  | cons c cs =>
    rw [ht] at hlen hmem
    have hcs : cs = [] := by
      cases cs with
      | nil => rfl
      | cons _ _ => simp at hlen
    subst hcs
    have hc : c = '\n' := by
      have := List.mem_singleton.1 hmem
      exact this.symm
    have := trim_getLast text c (by rw [ht]; rfl)
    rw [hc] at this
    exact absurd this (by decide)

theorem referenceLine_no_newline (doc : Document) (hdoc : SingleCharGrid doc)
    (row lo : Int) (n : Nat) : '\n' ∉ referenceLine (scannedCells doc row lo n) := by
  intro hmem
  unfold referenceLine at hmem
  obtain ⟨tok, htok, hc⟩ := List.mem_flatten.1 hmem
  have htok1 := (List.rdropWhile_prefix _ _).subset htok
  obtain ⟨t, ht, rfl⟩ := List.mem_map.1 htok1
  obtain ⟨col, hcol⟩ := scannedCells_mem doc row n lo t ht
  unfold cellToken at hc
  split at hc
  · simp at hc
  · exact trim_no_newline t (hdoc row col t hcol) hc

theorem cellText_mem (doc : Document) (row col : Int) (text : JSString)
    (h : cellText doc row col = some text) : ∃ e ∈ doc, e.textContent = text := by
  unfold cellText at h
  cases hg : getElementById doc (cellId (JSNum.int row) (JSNum.int col)) with
  | none => rw [hg] at h; simp at h
  | some e =>
    rw [hg] at h
    exact ⟨e, List.mem_of_find?_eq_some hg, by simpa using h⟩

/-- A document whose elements all hold a single character or are blank is a grid of
such cells. -/
theorem singleCharGrid_of_elements (doc : Document)
    (h : ∀ e ∈ doc, SingleCharOrBlank e.textContent) : SingleCharGrid doc := by
  intro row col text hc
  obtain ⟨e, he, rfl⟩ := cellText_mem doc row col text hc
  exact h e he

theorem count_newline_lines (lines : List JSString) (h : ∀ l ∈ lines, '\n' ∉ l) :
    (lines.map (fun l => l ++ "\n".toList)).flatten.count '\n' = lines.length := by
  induction lines with
  | nil => rfl
  | cons l rest ih =>
    have h1 : l.count '\n' = 0 := List.count_eq_zero.2 (h l (List.mem_cons_self _ _))
    have h2 := ih (fun x hx => h x (List.mem_cons_of_mem _ hx))
    have h3 : "\n".toList = ['\n'] := rfl
    have h4 : List.count '\n' ['\n'] = 1 := rfl
    rw [List.map_cons, List.flatten_cons, List.count_append, List.count_append, h1, h2, h3, h4,
      List.length_cons]
    omega

theorem getLast_newline_lines (lines : List JSString) (h : lines ≠ []) :
    (lines.map (fun l => l ++ "\n".toList)).flatten.getLast? = some '\n' := by
  rcases List.eq_nil_or_concat lines with h0 | ⟨init, l, rfl⟩
  · exact absurd h0 h
  · have h3 : "\n".toList = ['\n'] := rfl
    rw [List.concat_eq_append]
    simp only [List.map_append, List.map_cons, List.map_nil, List.flatten_append,
      List.flatten_cons, List.flatten_nil, List.append_nil, h3]
    rw [← List.append_assoc, List.getLast?_append]
    rfl

theorem forRange_length (lo hi : Int) :
    (forRange (JSNum.int lo) (JSNum.int hi)).length = (hi + 1 - lo).toNat := by
  simp [forRange]

/-- C6: newline framing.  When every cell holds a single character or is blank,
`fetchRows` on integer coordinates in the range of exact arithmetic
(`ExactFetchRows`: rows below 2^53, scans that stay below 2^53) returns exactly
`n = |a.row - b.row| + 1` lines with no newline inside, each followed by one
newline and nothing else between them: the text has exactly `n` newline characters
and ends in a newline. -/
theorem fetchRows_newline_framing (doc : Document) (hdoc : SingleCharGrid doc)
    (r1 c1 r2 c2 : Int) (_hexact : ExactFetchRows doc r1 c1 r2 c2) :
    ∃ lines : List JSString,
      fetchRows doc (JSNum.int r1, JSNum.int c1) (JSNum.int r2, JSNum.int c2)
        = some (lines.map (fun l => l ++ "\n".toList)).flatten ∧
      lines.length = (r1 - r2).natAbs + 1 ∧
      (∀ l ∈ lines, '\n' ∉ l) ∧
      (lines.map (fun l => l ++ "\n".toList)).flatten.count '\n' = (r1 - r2).natAbs + 1 ∧
      (lines.map (fun l => l ++ "\n".toList)).flatten.getLast? = some '\n' := by
  obtain ⟨sr, sc, er, ec, hn, hperm, hord⟩ := normalize_int r1 c1 r2 c2
  have hlen : ((forRange (JSNum.int sr) (JSNum.int er)).map
      (fun row => rowLine doc row sr sc er ec)).length = (r1 - r2).natAbs + 1 := by
    rw [List.length_map, forRange_length]
    omega
  have hno : ∀ l ∈ (forRange (JSNum.int sr) (JSNum.int er)).map
      (fun row => rowLine doc row sr sc er ec), '\n' ∉ l := by
    intro l hl
    obtain ⟨row, _, rfl⟩ := List.mem_map.1 hl
    exact referenceLine_no_newline doc hdoc row _ _
  refine ⟨(forRange (JSNum.int sr) (JSNum.int er)).map
    (fun row => rowLine doc row sr sc er ec), ?_, hlen, hno, ?_, ?_⟩
  · unfold fetchRows
    rw [hn]
    simp only [fetchRowsLoop_int, List.nil_append, List.map_map]
    rfl
  · rw [count_newline_lines _ hno, hlen]
  · apply getLast_newline_lines
    intro h0
    rw [h0] at hlen
    simp at hlen

/-- C6 on a two-row selection dragged upwards: exactly two lines. -/
theorem fetchRows_newline_framing_witness :
    SingleCharGrid (gridDoc [(1, 1, "a"), (1, 2, "b"), (1, 3, " "), (2, 1, "c"), (2, 2, ""),
      (2, 3, "d")]) ∧
    ExactFetchRows (gridDoc [(1, 1, "a"), (1, 2, "b"), (1, 3, " "), (2, 1, "c"), (2, 2, ""),
      (2, 3, "d")]) 2 3 1 2 ∧
    (∃ lines : List JSString,
      fetchRows (gridDoc [(1, 1, "a"), (1, 2, "b"), (1, 3, " "), (2, 1, "c"), (2, 2, ""),
          (2, 3, "d")]) (JSNum.int 2, JSNum.int 3) (JSNum.int 1, JSNum.int 2)
        = some (lines.map (fun l => l ++ "\n".toList)).flatten ∧
      lines.length = ((2 : Int) - 1).natAbs + 1 ∧
      (∀ l ∈ lines, '\n' ∉ l) ∧
      (lines.map (fun l => l ++ "\n".toList)).flatten.count '\n' = ((2 : Int) - 1).natAbs + 1 ∧
      (lines.map (fun l => l ++ "\n".toList)).flatten.getLast? = some '\n') ∧
    fetchRows (gridDoc [(1, 1, "a"), (1, 2, "b"), (1, 3, " "), (2, 1, "c"), (2, 2, ""),
        (2, 3, "d")]) (JSNum.int 2, JSNum.int 3) (JSNum.int 1, JSNum.int 2)
      = some "b\nc d\n".toList :=
  ⟨singleCharGrid_of_elements _ (by decide), by decide,
    fetchRows_newline_framing _ (singleCharGrid_of_elements _ (by decide)) 2 3 1 2 (by decide),
    by decide⟩

/-! ## Claims about `rowCol` -/

theorem splitDash_no_dash (s : JSString) (h : '-' ∉ s) : splitDash s = [s] := by
  induction s with
  | nil => rfl
  | cons c cs ih =>
    have hc : c ≠ '-' := fun e => h (e ▸ List.mem_cons_self _ _)
    have hcs : '-' ∉ cs := fun e => h (List.mem_cons_of_mem _ e)
    simp [splitDash, hc, ih hcs]

theorem splitDash_append_dash (s t : JSString) (h : '-' ∉ s) :
    splitDash (s ++ '-' :: t) = s :: splitDash t := by
  induction s with
  | nil => simp [splitDash]
  | cons c cs ih =>
    have hc : c ≠ '-' := fun e => h (e ▸ List.mem_cons_self _ _)
    have hcs : '-' ∉ cs := fun e => h (List.mem_cons_of_mem _ e)
    simp [splitDash, hc, ih hcs]

theorem natToString_no_dash (n : Nat) : '-' ∉ natToString n := by
  intro h
  obtain ⟨d, hd⟩ := natDigits_mem (n + 1) n '-' h
  exact digitChar_ne_minus d hd.symm

/-- The segments of the identifier of a cell with non-negative coordinates. -/
theorem splitDash_cellId (row col : Nat) :
    splitDash (cellId (JSNum.int row) (JSNum.int col))
      = ["exterm".toList, "cell".toList, natToString row, natToString col] := by
  have e : cellId (JSNum.int row) (JSNum.int col)
      = "exterm".toList ++ '-' :: ("cell".toList ++ '-' :: (natToString row ++ '-' ::
          natToString col)) := by
    have h1 : numToString (JSNum.int row) = natToString row := rfl
    have h2 : numToString (JSNum.int col) = natToString col := rfl
    unfold cellId
    rw [h1, h2]
    simp [List.append_assoc]
  rw [e, splitDash_append_dash _ _ (by decide), splitDash_append_dash _ _ (by decide),
    splitDash_append_dash _ _ (natToString_no_dash row),
    splitDash_no_dash _ (natToString_no_dash col)]

theorem rowCol_of_id (node : Option Node) (id : JSString) (row col : JSNum)
    (hid : idOfNode node = Completion.ok (some id))
    (hrow : toNumber (splitDash id)[2]? = some row)
    (hcol : toNumber (splitDash id)[3]? = some col) :
    rowCol node = Completion.ok (row, col) := by
  unfold rowCol
  rw [hid]
  simp only [hrow, hcol]

theorem rowCol_natCell (node : Option Node) (row col : Nat)
    (hrow : (row : Int) ≤ exactLimit) (hcol : (col : Int) ≤ exactLimit)
    (hid : idOfNode node = Completion.ok (some (cellId (JSNum.int row) (JSNum.int col)))) :
    rowCol node = Completion.ok (JSNum.int row, JSNum.int col) := by
  apply rowCol_of_id node _ _ _ hid
  · rw [splitDash_cellId]
    exact toNumber_natToString row hrow
  · rw [splitDash_cellId]
    exact toNumber_natToString col hcol

/-- C7: identifier round trip.  For all integers `row ≥ 1` and `col ≥ 1` that are
at most 2^53 (the range in which every integer is a number, printed in decimal and
read back exactly), `rowCol` applied to an element whose identifier is the string
that `fetchCols` builds for the cell `(row, col)`, or to a text node whose parent is
such an element, returns `[row, col]`. -/
theorem rowCol_cellId (row col : Int) (hrow : 1 ≤ row) (hcol : 1 ≤ col)
    (hrowmax : row ≤ exactLimit) (hcolmax : col ≤ exactLimit)
    (parentNode grandParent : Option Node) (textId : Option JSString) :
    rowCol (some (Node.mk 1 (some (cellId (JSNum.int row) (JSNum.int col))) parentNode))
      = Completion.ok (JSNum.int row, JSNum.int col) ∧
    rowCol (some (Node.mk 3 textId
        (some (Node.mk 1 (some (cellId (JSNum.int row) (JSNum.int col))) grandParent))))
      = Completion.ok (JSNum.int row, JSNum.int col) := by
  obtain ⟨r, rfl⟩ : ∃ r : Nat, row = (r : Int) := ⟨row.toNat, by omega⟩
  obtain ⟨c, rfl⟩ : ∃ c : Nat, col = (c : Int) := ⟨col.toNat, by omega⟩
  exact ⟨rowCol_natCell _ r c hrowmax hcolmax rfl, rowCol_natCell _ r c hrowmax hcolmax rfl⟩

/-- C7 at the cell `(12, 345)`, whose identifier is `exterm-cell-12-345`. -/
theorem rowCol_cellId_witness :
    (1 : Int) ≤ 12 ∧ (1 : Int) ≤ 345 ∧ (12 : Int) ≤ exactLimit ∧ (345 : Int) ≤ exactLimit ∧
    cellId (JSNum.int 12) (JSNum.int 345) = "exterm-cell-12-345".toList ∧
    rowCol (some (Node.mk 1 (some (cellId (JSNum.int 12) (JSNum.int 345))) none))
      = Completion.ok (JSNum.int 12, JSNum.int 345) ∧
    rowCol (some (Node.mk 3 none
        (some (Node.mk 1 (some (cellId (JSNum.int 12) (JSNum.int 345))) none))))
      = Completion.ok (JSNum.int 12, JSNum.int 345) :=
  ⟨by decide, by decide, by decide, by decide, by decide,
    rowCol_cellId 12 345 (by decide) (by decide) (by decide) (by decide) none none none⟩

theorem charDigit_some (c : Char) (d : Nat) (h : charDigit c = some d) :
    isWhiteSpace c = false ∧ c ≠ '+' ∧ c ≠ '-' := by
  unfold charDigit at h
  split_ifs at h with h0 h1 h2 h3 h4 h5 h6 h7 h8 h9 <;>
    (subst_vars; exact ⟨by decide, by decide, by decide⟩)

theorem parseDigits_chars (s : JSString) :
    ∀ n : Nat, parseDigits s = some n → ∀ c ∈ s, ∃ d, charDigit c = some d := by
  induction s using List.reverseRecOn with
  | nil =>
    intro n _ c hc
    simp at hc
  | append_singleton l a ih =>
    intro n h c hc
    rw [parseDigits_snoc] at h
    cases hl : parseDigits l with
    | none => rw [hl] at h; simp at h
    | some m =>
      rw [hl] at h
      cases ha : charDigit a with
      | none => rw [ha] at h; simp at h
      | some d =>
        rcases List.mem_append.1 hc with h1 | h1
        · exact ih m hl c h1
        · have : c = a := by simpa using h1
          exact ⟨d, this ▸ ha⟩

/-- A non-empty string of decimal digits converts to its value. -/
theorem toNumber_of_parseUnsigned (s : JSString) (n : Nat) (h : parseUnsigned s = some n)
    (hn : (n : Int) ≤ exactLimit) :
    toNumber (some s) = some (JSNum.int n) := by
  have hne : s ≠ [] := by
    intro h0
    simp [parseUnsigned, h0] at h
  have hpd : parseDigits s = some n := by
    unfold parseUnsigned at h
    rwa [if_neg hne] at h
  have hch := parseDigits_chars s n hpd
  have htrim : trim s = s := by
    apply trim_eq_self
    · intro c hc
      obtain ⟨d, hd⟩ := hch c (List.mem_of_mem_head? hc)
      exact (charDigit_some c d hd).1
    · intro c hc
      obtain ⟨d, hd⟩ := hch c (List.mem_of_getLast?_eq_some hc)
      exact (charDigit_some c d hd).1
  apply toNumber_of_decimalInteger
  · rw [htrim]
    cases s with
    | nil => exact absurd rfl hne
    | cons c cs =>
      obtain ⟨d, hd⟩ := hch c (List.mem_cons_self _ _)
      have hc := charDigit_some c d hd
      unfold decimalInteger
      split
      · rename_i heq
        cases heq
      · rename_i heq
        cases heq
        exact absurd rfl hc.2.1
      · rename_i heq
        cases heq
        exact absurd rfl hc.2.2
      · rw [h]
        rfl
  · constructor
    · have : (0 : Int) ≤ exactLimit := by decide
      omega
    · exact hn

/-- The conversion on strings that are no plain integers: no numeric literal gives
`NaN`; a value that `Number` rounds, a fraction, an exponent, a radix prefix and
`Infinity` are outside the model. -/
theorem toNumber_examples :
    toNumber (some "cell".toList) = some JSNum.nan ∧
    toNumber (some "foo".toList) = some JSNum.nan ∧
    toNumber (some "a".toList) = some JSNum.nan ∧
    toNumber (some "1e".toList) = some JSNum.nan ∧
    toNumber (some ".".toList) = some JSNum.nan ∧
    toNumber (some "0x".toList) = some JSNum.nan ∧
    toNumber (some "12px".toList) = some JSNum.nan ∧
    toNumber (some "infinity".toList) = some JSNum.nan ∧
    toNumber (some "+".toList) = some JSNum.nan ∧
    toNumber (some "".toList) = some (JSNum.int 0) ∧
    toNumber (some " 12 ".toList) = some (JSNum.int 12) ∧
    toNumber (some "+5".toList) = some (JSNum.int 5) ∧
    toNumber (some "007".toList) = some (JSNum.int 7) ∧
    toNumber (some "9007199254740992".toList) = some (JSNum.int 9007199254740992) ∧
    toNumber (some "9007199254740993".toList) = none ∧
    toNumber (some "1.5".toList) = none ∧
    toNumber (some "5.".toList) = none ∧
    toNumber (some ".5".toList) = none ∧
    toNumber (some "1e3".toList) = none ∧
    toNumber (some "0x1F".toList) = none ∧
    toNumber (some "Infinity".toList) = none ∧
    rowCol (some (Node.mk 1 (some "exterm-cell-x-y".toList) none))
      = Completion.ok (JSNum.nan, JSNum.nan) := by
  decide

/-- A non-numeric segment is no failure: on the three-segment identifier
`exterm-cell-x` the coordinate is `[NaN, NaN]`, the text is empty, and
`modifyClipboard` writes the empty string and prevents the default. -/
theorem modifyClipboard_non_numeric :
    rowCol (some (Node.mk 1 (some "exterm-cell-x".toList) none))
      = Completion.ok (JSNum.nan, JSNum.nan) ∧
    modifyClipboard (gridDoc [(1, 1, "a")])
        ⟨some (Node.mk 1 (some "exterm-cell-x".toList) none),
          some (Node.mk 1 (some "exterm-cell-1-1".toList) none)⟩ ⟨[], false⟩
      = (⟨[("text/plain".toList, [])], true⟩, Completion.ok ()) := by
  decide

/-- C8, the claim as stated fails: the identifier `exterm-cell-7-3-4` has the last
two segments `3` and `4`, and `rowCol` returns `[7, 3]`; the identifier `cell-3-4`
has the same last two segments, and `rowCol` returns `[4, NaN]`. -/
theorem rowCol_last_two_counterexample :
    splitDash "exterm-cell-7-3-4".toList
      = ["exterm".toList, "cell".toList, "7".toList, "3".toList, "4".toList] ∧
    parseUnsigned "3".toList = some 3 ∧ parseUnsigned "4".toList = some 4 ∧
    rowCol (some (Node.mk 1 (some "exterm-cell-7-3-4".toList) none))
      = Completion.ok (JSNum.int 7, JSNum.int 3) ∧
    rowCol (some (Node.mk 1 (some "exterm-cell-7-3-4".toList) none))
      ≠ Completion.ok (JSNum.int 3, JSNum.int 4) ∧
    splitDash "cell-3-4".toList = ["cell".toList, "3".toList, "4".toList] ∧
    rowCol (some (Node.mk 1 (some "cell-3-4".toList) none))
      = Completion.ok (JSNum.int 4, JSNum.nan) := by
  decide

/-- C8 as amended: for every node that carries an identifier (an element, or a text
node through its parent) with at least four dash-delimited segments whose third and
fourth segments are decimal integers of value at most 2^53, `rowCol` returns the
third and the fourth segment as the row and the column, whatever the first two
segments are and whatever follows the fourth. -/
theorem rowCol_third_fourth (node : Option Node) (id s0 s1 rowSeg colSeg : JSString)
    (rest : List JSString) (row col : Nat)
    (hid : idOfNode node = Completion.ok (some id))
    (hsplit : splitDash id = s0 :: s1 :: rowSeg :: colSeg :: rest)
    (hrow : parseUnsigned rowSeg = some row) (hcol : parseUnsigned colSeg = some col)
    (hrowmax : (row : Int) ≤ exactLimit) (hcolmax : (col : Int) ≤ exactLimit) :
    rowCol node = Completion.ok (JSNum.int row, JSNum.int col) := by
  apply rowCol_of_id node id _ _ hid
  · rw [hsplit]
    exact toNumber_of_parseUnsigned rowSeg row hrow hrowmax
  · rw [hsplit]
    have h3 : (s0 :: s1 :: rowSeg :: colSeg :: rest)[3]? = some colSeg := by simp
    rw [h3]
    exact toNumber_of_parseUnsigned colSeg col hcol hcolmax

/-- C8 as amended, at `exterm-cell-7-3-4`, on the element and on a text node inside
it: the third and fourth segments, `[7, 3]`. -/
theorem rowCol_third_fourth_witness :
    idOfNode (some (Node.mk 1 (some "exterm-cell-7-3-4".toList) none))
      = Completion.ok (some "exterm-cell-7-3-4".toList) ∧
    idOfNode (some (Node.mk 3 none (some (Node.mk 1 (some "exterm-cell-7-3-4".toList) none))))
      = Completion.ok (some "exterm-cell-7-3-4".toList) ∧
    splitDash "exterm-cell-7-3-4".toList
      = "exterm".toList :: "cell".toList :: "7".toList :: "3".toList :: ["4".toList] ∧
    parseUnsigned "7".toList = some 7 ∧ parseUnsigned "3".toList = some 3 ∧
    ((7 : Nat) : Int) ≤ exactLimit ∧ ((3 : Nat) : Int) ≤ exactLimit ∧
    rowCol (some (Node.mk 1 (some "exterm-cell-7-3-4".toList) none))
      = Completion.ok (JSNum.int (7 : Nat), JSNum.int (3 : Nat)) ∧
    rowCol (some (Node.mk 3 none (some (Node.mk 1 (some "exterm-cell-7-3-4".toList) none))))
      = Completion.ok (JSNum.int (7 : Nat), JSNum.int (3 : Nat)) :=
  ⟨by decide, by decide, by decide, by decide, by decide, by decide, by decide,
    rowCol_third_fourth (some (Node.mk 1 (some "exterm-cell-7-3-4".toList) none))
      "exterm-cell-7-3-4".toList "exterm".toList "cell".toList "7".toList
      "3".toList ["4".toList] 7 3 (by decide) (by decide) (by decide) (by decide) (by decide)
      (by decide),
    rowCol_third_fourth
      (some (Node.mk 3 none (some (Node.mk 1 (some "exterm-cell-7-3-4".toList) none))))
      "exterm-cell-7-3-4".toList "exterm".toList "cell".toList "7".toList
      "3".toList ["4".toList] 7 3 (by decide) (by decide) (by decide) (by decide) (by decide)
      (by decide)⟩

/-! ## Claims about `modifyClipboard` -/

/-- An identifier with fewer than three segments resolves to `[NaN, NaN]`. -/
theorem rowCol_few_segments (node : Option Node) (id : JSString)
    (hid : idOfNode node = Completion.ok (some id)) (hlen : (splitDash id).length < 3) :
    rowCol node = Completion.ok (JSNum.nan, JSNum.nan) := by
  apply rowCol_of_id node id _ _ hid
  · rw [List.getElem?_eq_none (by omega)]
    rfl
  · rw [List.getElem?_eq_none (by omega)]
    rfl

theorem fetchRows_nan_left (doc : Document) (col : JSNum) (coord2 : Coord) :
    fetchRows doc (JSNum.nan, col) coord2 = some [] := by
  obtain ⟨r2, c2⟩ := coord2
  cases r2 <;> simp [fetchRows, normalize, JSNum.lt, JSNum.eq, forRange, fetchRowsLoop]

theorem fetchRows_nan_right (doc : Document) (coord1 : Coord) (col : JSNum) :
    fetchRows doc coord1 (JSNum.nan, col) = some [] := by
  obtain ⟨r1, c1⟩ := coord1
  cases r1 <;> simp [fetchRows, normalize, JSNum.lt, JSNum.eq, forRange, fetchRowsLoop]

theorem modifyClipboard_ok (doc : Document) (selection : Selection) (event : ClipboardEvent)
    (coord1 coord2 : Coord) (copied : JSString)
    (h1 : rowCol selection.anchorNode = Completion.ok coord1)
    (h2 : rowCol selection.focusNode = Completion.ok coord2)
    (h3 : fetchRows doc coord1 coord2 = some copied) :
    modifyClipboard doc selection event
      = ({ written := event.written ++ [("text/plain".toList, copied)],
           defaultPrevented := true }, Completion.ok ()) := by
  unfold modifyClipboard
  rw [h1, h2]
  simp only [h3]

/-- C9, the claim as stated fails: no missing-identifier failure exists and
`setData` is called.  With an anchor element that has no identifier (its `id` is
the empty string) the listener writes the empty string; with anchor and focus on
`exterm-cell-1` (three segments) it writes `"\n"`; with the anchor on
`exterm-cell-1` and the focus on `exterm-cell-1-2` it writes the text of row 1
from column 2 to the end of the row. -/
theorem modifyClipboard_missing_id_counterexample :
    rowCol (some (Node.mk 1 (some []) none)) = Completion.ok (JSNum.nan, JSNum.nan) ∧
    modifyClipboard (gridDoc [(1, 1, "a"), (1, 2, "b"), (1, 3, "c")])
        ⟨some (Node.mk 1 (some []) none),
          some (Node.mk 1 (some "exterm-cell-1-2".toList) none)⟩ ⟨[], false⟩
      = (⟨[("text/plain".toList, [])], true⟩, Completion.ok ()) ∧
    modifyClipboard (gridDoc [(1, 1, "a"), (1, 2, "b"), (1, 3, "c")])
        ⟨some (Node.mk 1 (some "exterm-cell-1".toList) none),
          some (Node.mk 1 (some "exterm-cell-1".toList) none)⟩ ⟨[], false⟩
      = (⟨[("text/plain".toList, "\n".toList)], true⟩, Completion.ok ()) ∧
    modifyClipboard (gridDoc [(1, 1, "a"), (1, 2, "b"), (1, 3, "c")])
        ⟨some (Node.mk 1 (some "exterm-cell-1".toList) none),
          some (Node.mk 1 (some "exterm-cell-1-2".toList) none)⟩ ⟨[], false⟩
      = (⟨[("text/plain".toList, "bc\n".toList)], true⟩, Completion.ok ()) ∧
    (modifyClipboard (gridDoc [(1, 1, "a"), (1, 2, "b"), (1, 3, "c")])
        ⟨some (Node.mk 1 (some []) none),
          some (Node.mk 1 (some "exterm-cell-1-2".toList) none)⟩ ⟨[], false⟩).1.written
      ≠ [] := by
  decide

/-- C9 as amended: when the anchor or the focus carries an identifier with fewer
than three dash-delimited segments (the empty identifier of an element without one
included) and the other node resolves to a coordinate, both resolve without a
failure, one of them to `[NaN, NaN]`, the text produced is the empty string, and
`modifyClipboard` writes that empty string as `text/plain`, prevents the default
and returns normally. -/
theorem modifyClipboard_few_segments (doc : Document) (selection : Selection)
    (event : ClipboardEvent) (id : JSString) (other : Coord)
    (hlen : (splitDash id).length < 3)
    (h : (idOfNode selection.anchorNode = Completion.ok (some id) ∧
          rowCol selection.focusNode = Completion.ok other) ∨
         (rowCol selection.anchorNode = Completion.ok other ∧
          idOfNode selection.focusNode = Completion.ok (some id))) :
    ∃ coord1 coord2 : Coord,
      rowCol selection.anchorNode = Completion.ok coord1 ∧
      rowCol selection.focusNode = Completion.ok coord2 ∧
      (coord1 = (JSNum.nan, JSNum.nan) ∨ coord2 = (JSNum.nan, JSNum.nan)) ∧
      fetchRows doc coord1 coord2 = some [] ∧
      modifyClipboard doc selection event
        = ({ written := event.written ++ [("text/plain".toList, [])],
             defaultPrevented := true }, Completion.ok ()) := by
  rcases h with ⟨ha, hf⟩ | ⟨ha, hf⟩
  · have h1 := rowCol_few_segments _ id ha hlen
    have h3 := fetchRows_nan_left doc JSNum.nan other
    exact ⟨_, _, h1, hf, Or.inl rfl, h3, modifyClipboard_ok doc selection event _ _ _ h1 hf h3⟩
  · have h2 := rowCol_few_segments _ id hf hlen
    have h3 := fetchRows_nan_right doc other JSNum.nan
    exact ⟨_, _, ha, h2, Or.inr rfl, h3, modifyClipboard_ok doc selection event _ _ _ ha h2 h3⟩

/-- C9 as amended, with an anchor element without identifier and the focus on the
cell `(1, 2)`. -/
theorem modifyClipboard_few_segments_witness :
    (splitDash ([] : JSString)).length < 3 ∧
    idOfNode (some (Node.mk 1 (some []) none)) = Completion.ok (some []) ∧
    rowCol (some (Node.mk 1 (some "exterm-cell-1-2".toList) none))
      = Completion.ok (JSNum.int 1, JSNum.int 2) ∧
    ∃ coord1 coord2 : Coord,
      rowCol (some (Node.mk 1 (some []) none)) = Completion.ok coord1 ∧
      rowCol (some (Node.mk 1 (some "exterm-cell-1-2".toList) none)) = Completion.ok coord2 ∧
      (coord1 = (JSNum.nan, JSNum.nan) ∨ coord2 = (JSNum.nan, JSNum.nan)) ∧
      fetchRows (gridDoc [(1, 1, "a"), (1, 2, "b")]) coord1 coord2 = some [] ∧
      modifyClipboard (gridDoc [(1, 1, "a"), (1, 2, "b")])
          ⟨some (Node.mk 1 (some []) none),
            some (Node.mk 1 (some "exterm-cell-1-2".toList) none)⟩ ⟨[], false⟩
        = ({ written := ([] : List (JSString × JSString)) ++ [("text/plain".toList, [])],
             defaultPrevented := true }, Completion.ok ()) :=
  ⟨by decide, by decide, by decide,
    modifyClipboard_few_segments (gridDoc [(1, 1, "a"), (1, 2, "b")])
      ⟨some (Node.mk 1 (some []) none), some (Node.mk 1 (some "exterm-cell-1-2".toList) none)⟩
      ⟨[], false⟩ [] (JSNum.int 1, JSNum.int 2) (by decide) (Or.inl ⟨by decide, by decide⟩)⟩

/-- C10, the claim as stated fails: with no anchor node `rowCol` throws, the
listener is left at once, and `preventDefault` has not been called. -/
theorem modifyClipboard_failure_counterexample :
    rowCol none = Completion.error Abort.typeError ∧
    modifyClipboard (gridDoc [(1, 1, "a")]) ⟨none, none⟩ ⟨[], false⟩
      = (⟨[], false⟩, Completion.error Abort.typeError) ∧
    (modifyClipboard (gridDoc [(1, 1, "a")]) ⟨none, none⟩ ⟨[], false⟩).1.defaultPrevented
      = false := by
  decide

/-- C10 as amended: when `rowCol` throws on the anchor, or returns for the anchor
and throws on the focus, the `TypeError` leaves `modifyClipboard` at once and the
event is as it was: no payload is written and `preventDefault` is not called, so
the listener does not suppress the default copy. -/
theorem modifyClipboard_typeError (doc : Document) (selection : Selection)
    (event : ClipboardEvent)
    (h : rowCol selection.anchorNode = Completion.error Abort.typeError ∨
         (∃ coord1, rowCol selection.anchorNode = Completion.ok coord1 ∧
            rowCol selection.focusNode = Completion.error Abort.typeError)) :
    modifyClipboard doc selection event = (event, Completion.error Abort.typeError) ∧
    (modifyClipboard doc selection event).1.written = event.written ∧
    (modifyClipboard doc selection event).1.defaultPrevented = event.defaultPrevented := by
  have key : modifyClipboard doc selection event = (event, Completion.error Abort.typeError) := by
    unfold modifyClipboard
    rcases h with h | ⟨coord1, h1, h2⟩
    · rw [h]
    · rw [h1, h2]
  rw [key]
  exact ⟨rfl, rfl, rfl⟩

/-- C10 as amended, with a selection that has no anchor node. -/
theorem modifyClipboard_typeError_witness :
    rowCol (Selection.mk none none).anchorNode = Completion.error Abort.typeError ∧
    modifyClipboard (gridDoc [(1, 1, "a")]) ⟨none, none⟩ ⟨[], false⟩
      = (⟨[], false⟩, Completion.error Abort.typeError) ∧
    (modifyClipboard (gridDoc [(1, 1, "a")]) ⟨none, none⟩ ⟨[], false⟩).1.written = [] ∧
    (modifyClipboard (gridDoc [(1, 1, "a")]) ⟨none, none⟩ ⟨[], false⟩).1.defaultPrevented
      = false :=
  ⟨by decide, modifyClipboard_typeError (gridDoc [(1, 1, "a")]) ⟨none, none⟩ ⟨[], false⟩
    (Or.inl (by decide))⟩

/-! ## Claims about `sendPaste` -/

theorem getAttribute_setAttribute (attrs : List (JSString × JSString)) (name value : JSString) :
    getAttribute (setAttribute attrs name value) name = some value := by
  induction attrs with
  | nil => simp [setAttribute, getAttribute]
  | cons a rest ih =>
    obtain ⟨n, v⟩ := a
    by_cases h : n = name
    · simp [setAttribute, getAttribute, h]
    · simp [setAttribute, getAttribute, h, ih]

theorem getAttribute_setAttribute_ne (attrs : List (JSString × JSString))
    (name value other : JSString) (hne : other ≠ name) :
    getAttribute (setAttribute attrs name value) other = getAttribute attrs other := by
  induction attrs with
  | nil =>
    have : ¬ name = other := fun e => hne e.symm
    simp [setAttribute, getAttribute, this]
  | cons a rest ih =>
    obtain ⟨n, v⟩ := a
    by_cases h : n = name
    · have : ¬ name = other := fun e => hne e.symm
      simp [setAttribute, getAttribute, h, this]
    · simp only [setAttribute, h, if_false, getAttribute, ih]

/-- C11: paste relay.  When the relay element exists, `sendPaste` on an event with
plain-text payload `t` sets the relay's attribute `phx-value-paste` to exactly `t`,
then activates the relay once, which at that moment carries the value `t`, then
prevents the default of the event and returns; the other attributes of the relay
and the elements of the document (the cells of the grid) are unchanged. -/
theorem sendPaste_relay (page : Page) (relay : Relay) (event : PasteEvent)
    (h : page.pasteTarget = some relay) :
    ∃ relay1 : Relay,
      sendPaste page event
        = ({ doc := page.doc, pasteTarget := some relay1 },
           { plainText := event.plainText, defaultPrevented := true }, Completion.ok ()) ∧
      getAttribute relay1.attributes "phx-value-paste".toList = some event.plainText ∧
      relay1.activations = relay.activations ++ [relay1.attributes] ∧
      (∀ name : JSString, name ≠ "phx-value-paste".toList →
        getAttribute relay1.attributes name = getAttribute relay.attributes name) ∧
      (sendPaste page event).1.doc = page.doc := by
  refine ⟨{ attributes := setAttribute relay.attributes "phx-value-paste".toList event.plainText,
            activations := relay.activations ++
              [setAttribute relay.attributes "phx-value-paste".toList event.plainText] },
    ?_, getAttribute_setAttribute _ _ _, rfl, ?_, ?_⟩
  · unfold sendPaste
    rw [h]
  · intro name hne
    exact getAttribute_setAttribute_ne _ _ _ name hne
  · unfold sendPaste
    rw [h]

/-- C11 with the payload `"hello\nworld"` on a page of one cell and a relay that
carries another attribute and an older value. -/
theorem sendPaste_relay_witness :
    (Page.mk (gridDoc [(1, 1, "a")])
        (some ⟨[("id".toList, "exterm-paste-target".toList),
          ("phx-value-paste".toList, "old".toList)], []⟩)).pasteTarget
      = some ⟨[("id".toList, "exterm-paste-target".toList),
          ("phx-value-paste".toList, "old".toList)], []⟩ ∧
    sendPaste (Page.mk (gridDoc [(1, 1, "a")])
        (some ⟨[("id".toList, "exterm-paste-target".toList),
          ("phx-value-paste".toList, "old".toList)], []⟩)) ⟨"hello\nworld".toList, false⟩
      = (⟨gridDoc [(1, 1, "a")],
          some ⟨[("id".toList, "exterm-paste-target".toList),
              ("phx-value-paste".toList, "hello\nworld".toList)],
            [[("id".toList, "exterm-paste-target".toList),
              ("phx-value-paste".toList, "hello\nworld".toList)]]⟩⟩,
         ⟨"hello\nworld".toList, true⟩, Completion.ok ()) ∧
    ∃ relay1 : Relay,
      getAttribute relay1.attributes "phx-value-paste".toList = some "hello\nworld".toList ∧
      relay1.activations = [] ++ [relay1.attributes] :=
  ⟨rfl, by decide,
    (sendPaste_relay (Page.mk (gridDoc [(1, 1, "a")])
        (some ⟨[("id".toList, "exterm-paste-target".toList),
          ("phx-value-paste".toList, "old".toList)], []⟩))
      ⟨[("id".toList, "exterm-paste-target".toList), ("phx-value-paste".toList, "old".toList)], []⟩
      ⟨"hello\nworld".toList, false⟩ rfl).elim
      (fun relay1 hr => ⟨relay1, hr.2.1, hr.2.2.1⟩)⟩

/-! ## More claims about `fetchRows` and `fetchCols` -/

theorem columnsFrom_succ_last (lo : Int) (n : Nat) :
    columnsFrom lo (n + 1) = columnsFrom lo n ++ [lo + (n : Int)] := by
  simp [columnsFrom, List.range_succ]

theorem columnsFrom_mem (lo : Int) (n : Nat) (x : Int) (h : x ∈ columnsFrom lo n) :
    lo ≤ x ∧ x < lo + (n : Int) := by
  unfold columnsFrom at h
  obtain ⟨k, hk, rfl⟩ := List.mem_map.1 h
  have := List.mem_range.1 hk
  omega

/-- The rows of a selection over at least two rows: the first, those strictly
between, the last. -/
theorem forRange_rows (row1 row2 : Int) (h : row1 < row2) :
    forRange (JSNum.int row1) (JSNum.int row2)
      = row1 :: (columnsFrom (row1 + 1) (row2 - row1 - 1).toNat ++ [row2]) := by
  have e1 : forRange (JSNum.int row1) (JSNum.int row2)
      = columnsFrom row1 ((row2 - row1 - 1).toNat + 1 + 1) := by
    have : (row2 + 1 - row1).toNat = (row2 - row1 - 1).toNat + 1 + 1 := by omega
    simp only [forRange, columnsFrom, this]
  have e2 : row1 + 1 + (((row2 - row1 - 1).toNat : Nat) : Int) = row2 := by omega
  rw [e1, columnsFrom_succ, columnsFrom_succ_last, e2]

theorem normalize_lt_row (row1 col1 row2 col2 : Int) (h : row1 < row2) :
    normalize (JSNum.int row1, JSNum.int col1) (JSNum.int row2, JSNum.int col2)
      = ((JSNum.int row1, JSNum.int col1), (JSNum.int row2, JSNum.int col2)) := by
  simp [normalize, JSNum.lt_int, h]

/-- C12: multi-row serialization.  On a normalized range with `start.row < end.row`
and a positive end column, in the range of exact arithmetic (rows below 2^53, end
column at most 2^53, the scans from `start.col` and from column 1 below 2^53),
`fetchRows` returns the concatenation, in increasing row
order over every row from `start.row` to `end.row`, of one line per row: the first
row scanned from `start.col` to the end of its rendered cells, each row between from
column 1 to the end of its rendered cells, the last row from column 1 up to
`end.col` inclusive. -/
theorem fetchRows_multi_row (doc : Document) (row1 col1 row2 col2 : Int)
    (hrow : row1 < row2) (hcol : 1 ≤ col2)
    (_hrow1 : ExactStep row1) (_hrow2 : ExactStep row2) (_hcol2 : ExactInt col2)
    (_hscan : ExactScan doc col1) (_hscan1 : ExactScan doc 1) :
    fetchRows doc (JSNum.int row1, JSNum.int col1) (JSNum.int row2, JSNum.int col2)
      = some (multiRowText doc row1 col1 row2 col2) := by
  unfold fetchRows
  rw [normalize_lt_row row1 col1 row2 col2 hrow]
  simp only [fetchRowsLoop_int, forRange_rows row1 row2 hrow, List.nil_append, List.map_cons,
    List.map_append, List.map_nil, List.flatten_cons, List.flatten_append, List.flatten_nil,
    List.append_nil]
  have hfirst : rowLine doc row1 row1 col1 row2 col2 = referenceLine (rowToEnd doc row1 col1) := by
    have hne : ¬ (row1 = row2 ∧ col1 ≤ col2) := fun e => absurd e.1 (ne_of_lt hrow)
    simp [rowLine, rowToEnd, scanStart, scanCount, hne]
  have hlast : rowLine doc row2 row1 col1 row2 col2 = referenceLine (rowUpTo doc row2 1 col2) := by
    have hne : ¬ row2 = row1 := ne_of_gt hrow
    simp [rowLine, rowUpTo, scanStart, scanCount, hne, hcol]
  have hmid : (columnsFrom (row1 + 1) (row2 - row1 - 1).toNat).map
        (fun row => rowLine doc row row1 col1 row2 col2 ++ "\n".toList)
      = (columnsFrom (row1 + 1) (row2 - row1 - 1).toNat).map
        (fun row => referenceLine (rowToEnd doc row 1) ++ "\n".toList) := by
    apply List.map_congr_left
    intro row hmem
    have hb := columnsFrom_mem _ _ _ hmem
    have h1 : ¬ row = row1 := by omega
    have h2 : ¬ (row = row2 ∧ 1 ≤ col2) := fun e => by omega
    simp [rowLine, rowToEnd, scanStart, scanCount, h1, h2]
  rw [hfirst, hlast, hmid]
  simp [multiRowText, List.append_assoc]

/-- C12 on a selection from `(1,2)` to `(3,2)` over a grid of three rows. -/
theorem fetchRows_multi_row_witness :
    (1 : Int) < 3 ∧ (1 : Int) ≤ 2 ∧ ExactStep 1 ∧ ExactStep 3 ∧ ExactInt 2 ∧
    ExactScan (gridDoc [(1, 1, "a"), (1, 2, "b"), (1, 3, "c"), (2, 1, "d"), (2, 2, ""),
        (2, 3, "e"), (2, 4, " "), (3, 1, "f"), (3, 2, "g"), (3, 3, "h")]) 2 ∧
    ExactScan (gridDoc [(1, 1, "a"), (1, 2, "b"), (1, 3, "c"), (2, 1, "d"), (2, 2, ""),
        (2, 3, "e"), (2, 4, " "), (3, 1, "f"), (3, 2, "g"), (3, 3, "h")]) 1 ∧
    fetchRows (gridDoc [(1, 1, "a"), (1, 2, "b"), (1, 3, "c"), (2, 1, "d"), (2, 2, ""),
        (2, 3, "e"), (2, 4, " "), (3, 1, "f"), (3, 2, "g"), (3, 3, "h")])
        (JSNum.int 1, JSNum.int 2) (JSNum.int 3, JSNum.int 2)
      = some "bc\nd e\nfg\n".toList :=
  ⟨by decide, by decide, by decide, by decide, by decide, by decide, by decide,
    (fetchRows_multi_row _ 1 2 3 2 (by decide) (by decide) (by decide) (by decide) (by decide)
      (by decide) (by decide)).trans (by decide)⟩

/-- Two scans of a row from the same column agree when a missing cell lies within
the reach of both. -/
theorem scannedCells_eq_of_missing (doc : Document) (row : Int) (k : Nat) :
    ∀ (lo : Int) (n m : Nat), k ≤ n → k ≤ m → cellText doc row (lo + (k : Int)) = none →
      scannedCells doc row lo n = scannedCells doc row lo m := by
  induction k with
  | zero =>
    intro lo n m _ _ hmiss
    simp only [Nat.cast_zero, add_zero] at hmiss
    cases n with
    | zero =>
      cases m with
      | zero => rfl
      | succ m => rw [scannedCells_zero, scannedCells_succ_none doc row lo m hmiss]
    | succ n =>
      cases m with
      | zero => rw [scannedCells_zero, scannedCells_succ_none doc row lo n hmiss]
      | succ m =>
        rw [scannedCells_succ_none doc row lo n hmiss, scannedCells_succ_none doc row lo m hmiss]
  | succ k ih =>
    intro lo n m hn hm hmiss
    obtain ⟨n1, rfl⟩ : ∃ n1, n = n1 + 1 := ⟨n - 1, by omega⟩
    obtain ⟨m1, rfl⟩ : ∃ m1, m = m1 + 1 := ⟨m - 1, by omega⟩
    cases hc : cellText doc row lo with
    | none =>
      rw [scannedCells_succ_none doc row lo n1 hc, scannedCells_succ_none doc row lo m1 hc]
    | some t =>
      rw [scannedCells_succ_some doc row lo n1 t hc, scannedCells_succ_some doc row lo m1 t hc]
      congr 1
      apply ih (lo + 1) n1 m1 (by omega) (by omega)
      rw [← hmiss]
      congr 1
      push_cast
      omega

/-- C13: short-row truncation.  When the rendered cells of `row` are exactly the
columns `1..w` and the range ends at `(row, col2)` with `col2 > w`, `fetchCols` on
that row returns a text (it does not fail), the cell at column `w + 1` where the
scan stops is missing, and the text is the one returned for the range that ends at
`(row, w)`. -/
theorem fetchCols_short_row (doc : Document) (row row1 col1 w col2 : Int)
    (hcells : ∀ col : Int, (cellText doc row col).isSome = true ↔ (1 ≤ col ∧ col ≤ w))
    (hlong : w < col2) :
    (∃ text : JSString,
      fetchCols doc (JSNum.int row) (JSNum.int row1, JSNum.int col1)
        (JSNum.int row, JSNum.int col2) = some text) ∧
    cellText doc row (w + 1) = none ∧
    fetchCols doc (JSNum.int row) (JSNum.int row1, JSNum.int col1)
        (JSNum.int row, JSNum.int col2)
      = fetchCols doc (JSNum.int row) (JSNum.int row1, JSNum.int col1)
        (JSNum.int row, JSNum.int w) := by
  have hnone : ∀ col : Int, ¬ (1 ≤ col ∧ col ≤ w) → cellText doc row col = none := by
    intro col hc
    cases h : cellText doc row col with
    | none => rfl
    | some t => exact absurd ((hcells col).1 (by simp [h])) hc
  refine ⟨⟨_, fetchCols_int doc row row1 col1 row col2⟩, hnone (w + 1) (by omega), ?_⟩
  rw [fetchCols_int, fetchCols_int]
  congr 3
  generalize scanStart row row1 col1 = lo
  unfold scanCount
  by_cases hin : 1 ≤ lo ∧ lo ≤ w
  · have h1 : row = row ∧ lo ≤ col2 := ⟨rfl, by omega⟩
    have h2 : row = row ∧ lo ≤ w := ⟨rfl, hin.2⟩
    rw [if_pos h1, if_pos h2]
    apply scannedCells_eq_of_missing doc row (w + 1 - lo).toNat lo _ _ (by omega) (by omega)
    have e : lo + (((w + 1 - lo).toNat : Nat) : Int) = w + 1 := by omega
    rw [e]
    exact hnone (w + 1) (by omega)
  · have hmiss : cellText doc row (lo + ((0 : Nat) : Int)) = none := by
      simp only [Nat.cast_zero, add_zero]
      exact hnone lo hin
    exact scannedCells_eq_of_missing doc row 0 lo _ _ (Nat.zero_le _) (Nat.zero_le _) hmiss

/-- C13 on a row of three cells with the range end at column 9. -/
theorem fetchCols_short_row_witness :
    (∀ col : Int, (cellText (gridDoc [(4, 1, "x"), (4, 2, " "), (4, 3, "y")]) 4 col).isSome = true
      ↔ (1 ≤ col ∧ col ≤ 3)) ∧
    (3 : Int) < 9 ∧
    fetchCols (gridDoc [(4, 1, "x"), (4, 2, " "), (4, 3, "y")]) (JSNum.int 4)
        (JSNum.int 4, JSNum.int 1) (JSNum.int 4, JSNum.int 9)
      = fetchCols (gridDoc [(4, 1, "x"), (4, 2, " "), (4, 3, "y")]) (JSNum.int 4)
        (JSNum.int 4, JSNum.int 1) (JSNum.int 4, JSNum.int 3) ∧
    fetchCols (gridDoc [(4, 1, "x"), (4, 2, " "), (4, 3, "y")]) (JSNum.int 4)
        (JSNum.int 4, JSNum.int 1) (JSNum.int 4, JSNum.int 9) = some "x y\n".toList :=
  have hcells : ∀ col : Int,
      (cellText (gridDoc [(4, 1, "x"), (4, 2, " "), (4, 3, "y")]) 4 col).isSome = true
        ↔ (1 ≤ col ∧ col ≤ 3) := by
    intro col
    constructor
    · intro h
      by_contra hc
      have hmem : cellId (JSNum.int 4) (JSNum.int col)
          ∈ (gridDoc [(4, 1, "x"), (4, 2, " "), (4, 3, "y")]).map Element.id := by
        cases hg : getElementById (gridDoc [(4, 1, "x"), (4, 2, " "), (4, 3, "y")])
            (cellId (JSNum.int 4) (JSNum.int col)) with
        | none => simp [cellText, hg] at h
        | some e => exact getElementById_mem _ _ e hg
      simp only [gridDoc, List.map_cons, List.map_nil, List.mem_cons, List.mem_singleton,
        List.not_mem_nil, or_false] at hmem
      rcases hmem with hm | hm | hm
      · have := cellId_col_injective _ _ _ hm
        omega
      · have := cellId_col_injective _ _ _ hm
        omega
      · have := cellId_col_injective _ _ _ hm
        omega
    · rintro ⟨h1, h2⟩
      interval_cases col <;> decide
  ⟨hcells, by decide, (fetchCols_short_row _ 4 4 1 3 9 hcells (by decide)).2.2, by decide⟩

/-- C17: collapsed selection.  With `row` and `col` integers below 2^53
(`ExactStep`: the one `index++` on the row and the one `index += 1` on the column
are exact), `fetchRows(a, a)` with `a = (row, col)` returns the trimmed content of
the cell at `(row, col)` followed by a newline, which is `"\n"` alone for a blank
cell, and `"\n"` when there is no cell at `(row, col)`. -/
theorem fetchRows_collapsed (doc : Document) (row col : Int)
    (_hrow : ExactStep row) (_hcol : ExactStep col) :
    fetchRows doc (JSNum.int row, JSNum.int col) (JSNum.int row, JSNum.int col)
      = some ((match cellText doc row col with
                | some text => trim text
                | none => []) ++ "\n".toList) ∧
    (∀ text : JSString, cellText doc row col = some text → trim text = [] →
      fetchRows doc (JSNum.int row, JSNum.int col) (JSNum.int row, JSNum.int col)
        = some "\n".toList) ∧
    (cellText doc row col = none →
      fetchRows doc (JSNum.int row, JSNum.int col) (JSNum.int row, JSNum.int col)
        = some "\n".toList) := by
  have key : fetchRows doc (JSNum.int row, JSNum.int col) (JSNum.int row, JSNum.int col)
      = some ((match cellText doc row col with
                | some text => trim text
                | none => []) ++ "\n".toList) := by
    rw [(fetchRows_same_row doc row col col (le_refl col)).1]
    have e : (col + 1 - col).toNat = 0 + 1 := by omega
    rw [e]
    cases hc : cellText doc row col with
    | none =>
      rw [scannedCells_succ_none doc row col 0 hc]
      rfl
    | some text =>
      rw [scannedCells_succ_some doc row col 0 text hc, scannedCells_zero,
        ← (foldl_emit_spec [text]).1]
      by_cases ht : trim text = []
      · simp [emit, ht]
      · simp [emit, ht, spaces]
  refine ⟨key, ?_, ?_⟩
  · intro text hc ht
    rw [key, hc]
    simp [ht]
  · intro hc
    rw [key, hc]
    rfl

/-- C17 on a cell that holds `" x "`, on a blank cell and on a missing cell. -/
theorem fetchRows_collapsed_witness :
    ExactStep 1 ∧ ExactStep 2 ∧ ExactStep 3 ∧
    cellText (gridDoc [(1, 1, " x "), (1, 2, "  ")]) 1 2 = some "  ".toList ∧
    trim "  ".toList = [] ∧
    cellText (gridDoc [(1, 1, " x "), (1, 2, "  ")]) 1 3 = none ∧
    fetchRows (gridDoc [(1, 1, " x "), (1, 2, "  ")]) (JSNum.int 1, JSNum.int 1)
      (JSNum.int 1, JSNum.int 1) = some "x\n".toList ∧
    fetchRows (gridDoc [(1, 1, " x "), (1, 2, "  ")]) (JSNum.int 1, JSNum.int 2)
      (JSNum.int 1, JSNum.int 2) = some "\n".toList ∧
    fetchRows (gridDoc [(1, 1, " x "), (1, 2, "  ")]) (JSNum.int 1, JSNum.int 3)
      (JSNum.int 1, JSNum.int 3) = some "\n".toList :=
  ⟨by decide, by decide, by decide, by decide, by decide, by decide,
    (fetchRows_collapsed (gridDoc [(1, 1, " x "), (1, 2, "  ")]) 1 1 (by decide)
      (by decide)).1.trans (by decide),
    (fetchRows_collapsed (gridDoc [(1, 1, " x "), (1, 2, "  ")]) 1 2 (by decide)
      (by decide)).2.1 "  ".toList (by decide) (by decide),
    (fetchRows_collapsed (gridDoc [(1, 1, " x "), (1, 2, "  ")]) 1 3 (by decide)
      (by decide)).2.2 (by decide)⟩

/-! ## Termination -/

/-- A loop that has a missing cell `m` columns ahead exits within `m + 1` steps. -/
theorem fetchColsLoop_exits (doc : Document) (row : Int) (row2 col2 : JSNum) (m : Nat) :
    ∀ (lo : Int) (st : JSString × Nat) (fuel : Nat), m < fuel →
      cellText doc row (lo + (m : Int)) = none →
      ∃ line : JSString,
        fetchColsLoop doc (JSNum.int row) row2 col2 fuel (JSNum.int lo) st = some line := by
  induction m with
  | zero =>
    intro lo st fuel hf hmiss
    exact ⟨_, fetchColsLoop_missing doc row row2 col2 0 lo st fuel 1 hf (by omega) hmiss
      (fun k hk => absurd hk (Nat.not_lt_zero k))⟩
  | succ m ih =>
    intro lo st fuel hf hmiss
    obtain ⟨f, rfl⟩ : ∃ f, fuel = f + 1 := ⟨fuel - 1, by omega⟩
    unfold fetchColsLoop
    cases hg : getElementById doc (cellId (JSNum.int row) (JSNum.int lo)) with
    | none => exact ⟨_, rfl⟩
    | some e =>
      simp only
      split
      · exact ⟨_, rfl⟩
      · apply ih (lo + 1) _ f (by omega)
        rw [← hmiss]
        congr 1
        push_cast
        omega

theorem fetchRows_int_some (doc : Document) (r1 c1 r2 c2 : Int) :
    ∃ text : JSString,
      fetchRows doc (JSNum.int r1, JSNum.int c1) (JSNum.int r2, JSNum.int c2) = some text := by
  obtain ⟨sr, sc, er, ec, hn, _, _⟩ := normalize_int r1 c1 r2 c2
  unfold fetchRows
  rw [hn]
  exact ⟨_, fetchRowsLoop_int doc sr sc er ec _ []⟩

/-- C16: termination.  For every document (a finite list of elements, so every row
has finitely many cells) and all integer coordinates in the range of exact
arithmetic (`ExactFetchRows`: rows below 2^53, scans that stay below 2^53),
`fetchRows` returns a text.  On every row, for a scan that stays in that range
(`ExactScan`), the loop of `fetchCols` runs some `n` iterations that continue, with
`n` at most the number of elements, and exits in the next one, at the first missing
cell or, on the end row, at the end column; any step budget above `n` is enough,
and every `index += 1` it executes is on an index below 2^53.  More generally, a
missing cell `m` columns ahead of the scan start, at a column up to 2^53, makes the
loop exit within `m + 1` iterations. -/
theorem fetchRows_terminates (doc : Document) :
    (∀ r1 c1 r2 c2 : Int, ExactFetchRows doc r1 c1 r2 c2 → ∃ text : JSString,
      fetchRows doc (JSNum.int r1, JSNum.int c1) (JSNum.int r2, JSNum.int c2) = some text) ∧
    (∀ (row lo row2 col2 : Int) (st : JSString × Nat),
      ExactInt row → ExactInt row2 → ExactInt col2 → ExactScan doc lo →
      ∃ n : Nat, n ≤ doc.length ∧
        (∀ k : Nat, k < n → (cellText doc row (lo + (k : Int))).isSome = true ∧
          ¬ (row = row2 ∧ lo + (k : Int) = col2)) ∧
        (cellText doc row (lo + (n : Int)) = none ∨ (row = row2 ∧ lo + (n : Int) = col2)) ∧
        ∀ fuel : Nat, n < fuel →
          (∃ line : JSString,
            fetchColsLoop doc (JSNum.int row) (JSNum.int row2) (JSNum.int col2) fuel
              (JSNum.int lo) st = some line) ∧
          ∀ i ∈ fetchColsIncrements doc (JSNum.int row) (JSNum.int row2) (JSNum.int col2) fuel
              (JSNum.int lo), ∃ z : Int, i = JSNum.int z ∧ ExactStep z) ∧
    (∀ (row lo row2 col2 : Int) (st : JSString × Nat) (m fuel : Nat),
      ExactInt row → ExactInt row2 → ExactInt col2 →
      -exactLimit ≤ lo → lo + (m : Int) ≤ exactLimit →
      cellText doc row (lo + (m : Int)) = none → m < fuel →
      (∃ line : JSString,
        fetchColsLoop doc (JSNum.int row) (JSNum.int row2) (JSNum.int col2) fuel
          (JSNum.int lo) st = some line) ∧
      ∀ i ∈ fetchColsIncrements doc (JSNum.int row) (JSNum.int row2) (JSNum.int col2) fuel
          (JSNum.int lo), ∃ z : Int, i = JSNum.int z ∧ ExactStep z) := by
  refine ⟨fun r1 c1 r2 c2 _ => fetchRows_int_some doc r1 c1 r2 c2, ?_, ?_⟩
  · intro row lo row2 col2 st _ _ _ hscan
    classical
    obtain ⟨n0, hn0, hmiss0⟩ := exists_missing_cell doc row lo
    have hex : ∃ n : Nat, cellText doc row (lo + (n : Int)) = none ∨
        (row = row2 ∧ lo + (n : Int) = col2) := ⟨n0, Or.inl hmiss0⟩
    refine ⟨Nat.find hex, le_trans (Nat.find_min' hex (Or.inl hmiss0)) hn0, ?_,
      Nat.find_spec hex, ?_⟩
    · intro k hk
      have hnot := Nat.find_min hex hk
      constructor
      · cases hc : cellText doc row (lo + (k : Int)) with
        | none => exact absurd (Or.inl hc) hnot
        | some t => rfl
      · exact fun h => hnot (Or.inr h)
    · intro fuel hf
      refine ⟨?_, fetchColsIncrements_exact doc row lo _ _ fuel hscan⟩
      rcases Nat.find_spec hex with hmiss | ⟨hrow, hcol⟩
      · exact fetchColsLoop_exits doc row _ _ _ lo st fuel hf hmiss
      · have hrow2 : (JSNum.int row).eq (JSNum.int row2) = true := by simp [JSNum.eq, hrow]
        rw [← hcol]
        exact ⟨_, fetchColsLoop_stop doc row (JSNum.int row2) _ lo st fuel hf hrow2⟩
  · intro row lo row2 col2 st m fuel _ _ _ hlo hhi hmiss hf
    refine ⟨fetchColsLoop_exits doc row _ _ m lo st fuel hf hmiss, ?_⟩
    intro i hi
    obtain ⟨z, hz, h1, h2⟩ :=
      fetchColsIncrements_before_missing doc row _ _ fuel lo m hmiss i hi
    exact ⟨z, hz, by omega, by omega⟩

/-- C16 on a row of three cells scanned from column 1: the cell three columns ahead
is missing and four steps are enough. -/
theorem fetchRows_terminates_witness :
    ExactInt 1 ∧ ExactInt 2 ∧ ExactInt 9 ∧ -exactLimit ≤ (1 : Int) ∧
    (1 : Int) + ((3 : Nat) : Int) ≤ exactLimit ∧
    cellText (gridDoc [(1, 1, "a"), (1, 2, "b"), (1, 3, "c")]) 1 (1 + ((3 : Nat) : Int)) = none ∧
    3 < 4 ∧
    ExactFetchRows (gridDoc [(1, 1, "a"), (1, 2, "b"), (1, 3, "c")]) 1 3 1 1 ∧
    (∃ line : JSString,
      fetchColsLoop (gridDoc [(1, 1, "a"), (1, 2, "b"), (1, 3, "c")]) (JSNum.int 1)
        (JSNum.int 2) (JSNum.int 9) 4 (JSNum.int 1) ([], 0) = some line) ∧
    ∃ text : JSString,
      fetchRows (gridDoc [(1, 1, "a"), (1, 2, "b"), (1, 3, "c")]) (JSNum.int 1, JSNum.int 3)
        (JSNum.int 1, JSNum.int 1) = some text :=
  ⟨by decide, by decide, by decide, by decide, by decide, by decide, by decide, by decide,
    ((fetchRows_terminates (gridDoc [(1, 1, "a"), (1, 2, "b"), (1, 3, "c")])).2.2
      1 1 2 9 ([], 0) 3 4 (by decide) (by decide) (by decide) (by decide) (by decide)
      (by decide) (by decide)).1,
    (fetchRows_terminates (gridDoc [(1, 1, "a"), (1, 2, "b"), (1, 3, "c")])).1
      1 3 1 1 (by decide)⟩

/-! ## The width of a line -/

theorem utf16Length_append (a b : JSString) :
    utf16Length (a ++ b) = utf16Length a + utf16Length b := by
  simp [utf16Length, List.map_append, List.sum_append]

theorem utf16Length_cons (c : Char) (s : JSString) :
    utf16Length (c :: s) = utf16Size c + utf16Length s := by
  simp [utf16Length]

theorem utf16Size_pos (c : Char) : 1 ≤ utf16Size c := by
  unfold utf16Size
  split <;> omega

theorem utf16Length_spaces (n : Nat) : utf16Length (spaces n) = n := by
  induction n with
  | zero => rfl
  | succ n ih =>
    have h1 : utf16Size ' ' = 1 := by decide
    rw [spaces_succ, utf16Length_append, ih, utf16Length_cons, h1]
    rfl

theorem utf16Length_dropWhile_le (p : Char → Bool) (s : JSString) :
    utf16Length (s.dropWhile p) ≤ utf16Length s := by
  induction s with
  | nil => simp
  | cons c cs ih =>
    rw [List.dropWhile_cons]
    split
    · rw [utf16Length_cons]
      omega
    · exact le_refl _

theorem utf16Length_reverse (s : JSString) : utf16Length s.reverse = utf16Length s := by
  induction s with
  | nil => rfl
  | cons c cs ih =>
    rw [List.reverse_cons, utf16Length_append, ih, utf16Length_cons, utf16Length_cons]
    simp [utf16Length]
    omega

theorem utf16Length_trim_le (s : JSString) : utf16Length (trim s) ≤ utf16Length s := by
  unfold trim
  rw [utf16Length_reverse]
  calc utf16Length ((s.dropWhile isWhiteSpace).reverse.dropWhile isWhiteSpace)
      ≤ utf16Length (s.dropWhile isWhiteSpace).reverse := utf16Length_dropWhile_le _ _
    _ = utf16Length (s.dropWhile isWhiteSpace) := utf16Length_reverse _
    _ ≤ utf16Length s := utf16Length_dropWhile_le _ _

theorem utf16Length_pos (s : JSString) (h : s ≠ []) : 1 ≤ utf16Length s := by
  cases s with
  | nil => exact absurd rfl h
  | cons c cs =>
    rw [utf16Length_cons]
    have := utf16Size_pos c
    omega

/-- A character outside the basic plane counts for two in the `length` of a string:
a cell that holds one such character is no cell of one code unit. -/
theorem utf16Length_astral :
    utf16Length [Char.ofNat 0x1F600] = 2 ∧ [Char.ofNat 0x1F600].length = 1 ∧
    ¬ SingleUnitOrBlank [Char.ofNat 0x1F600] := by
  decide

/-- One execution of the loop body on a cell of one code unit or blank adds one to
the length of the line plus the buffered spaces. -/
theorem emit_length (st : JSString × Nat) (text : JSString) (h : SingleUnitOrBlank text) :
    utf16Length (emit st (trim text)).1 + (emit st (trim text)).2
      = utf16Length st.1 + st.2 + 1 := by
  by_cases ht : trim text = []
  · simp [emit, ht]
    omega
  · have hlen : utf16Length (trim text) = 1 := by
      have hle : utf16Length (trim text) ≤ 1 := by
        rcases h with h | h
        · exact le_trans (utf16Length_trim_le _) h
        · exact absurd h ht
      have hpos := utf16Length_pos (trim text) ht
      omega
    simp only [emit, ht, if_false, utf16Length_append, utf16Length_spaces, hlen]
    omega

theorem fetchColsStates_invariant (doc : Document) (hdoc : SingleUnitGrid doc) (row : Int)
    (row2 col2 : JSNum) (fuel : Nat) :
    ∀ (lo : Int) (st : JSString × Nat) (k : Nat) (s : JSString × Nat),
      (fetchColsStates doc (JSNum.int row) row2 col2 fuel (JSNum.int lo) st)[k]? = some s →
      utf16Length s.1 + s.2 = utf16Length st.1 + st.2 + k + 1 := by
  induction fuel with
  | zero =>
    intro lo st k s h
    simp [fetchColsStates] at h
  | succ fuel ih =>
    intro lo st k s h
    unfold fetchColsStates at h
    cases hg : getElementById doc (cellId (JSNum.int row) (JSNum.int lo)) with
    | none =>
      rw [hg] at h
      simp at h
    | some e =>
      rw [hg] at h
      have hstep := emit_length st e.textContent
        (hdoc row lo e.textContent (cellText_of_get doc row lo e hg))
      simp only at h
      split at h
      · cases k with
        | zero =>
          simp at h
          subst h
          omega
        | succ k => simp at h
      · cases k with
        | zero =>
          simp at h
          subst h
          omega
        | succ k =>
          simp only [List.getElem?_cons_succ, JSNum.succ] at h
          have := ih (lo + 1) _ k s h
          omega

/-- The line the loop returns is the line of the last state it went through. -/
theorem fetchColsLoop_states (doc : Document) (row row2 col2 : JSNum) (fuel : Nat) :
    ∀ (index : JSNum) (st : JSString × Nat) (line : JSString),
      fetchColsLoop doc row row2 col2 fuel index st = some line →
      line = ((fetchColsStates doc row row2 col2 fuel index st).getLast?.getD st).1 := by
  induction fuel with
  | zero =>
    intro index st line h
    simp [fetchColsLoop] at h
  | succ fuel ih =>
    intro index st line h
    unfold fetchColsLoop at h
    unfold fetchColsStates
    cases hg : getElementById doc (cellId row index) with
    | none =>
      rw [hg] at h
      simp at h
      simp [h]
    | some e =>
      rw [hg] at h
      simp only at h ⊢
      split
      · rename_i hstop
        rw [if_pos hstop] at h
        simp at h
        simp [h]
      · rename_i hstop
        rw [if_neg hstop] at h
        have := ih _ _ line h
        rw [List.getLast?_cons]
        simpa using this

theorem fetchColsStates_length (doc : Document) (row col2 : Int) (fuel : Nat) :
    ∀ (lo : Int) (st : JSString × Nat), lo ≤ col2 →
      (fetchColsStates doc (JSNum.int row) (JSNum.int row) (JSNum.int col2) fuel
        (JSNum.int lo) st).length ≤ (col2 + 1 - lo).toNat := by
  induction fuel with
  | zero =>
    intro lo st _
    simp [fetchColsStates]
  | succ fuel ih =>
    intro lo st hle
    unfold fetchColsStates
    cases hg : getElementById doc (cellId (JSNum.int row) (JSNum.int lo)) with
    | none => simp
    | some e =>
      simp only
      split
      · simp
        omega
      · rename_i hstop
        have hne : lo ≠ col2 := by
          intro e1
          apply hstop
          simp [JSNum.eq, e1]
        have := ih (lo + 1) (emit st (trim e.textContent)) (by omega)
        simp only [List.length_cons, JSNum.succ]
        omega

theorem singleUnitGrid_of_elements (doc : Document)
    (h : ∀ e ∈ doc, SingleUnitOrBlank e.textContent) : SingleUnitGrid doc := by
  intro row col text hc
  obtain ⟨e, he, rfl⟩ := cellText_mem doc row col text hc
  exact h e he

/-- C18: width bound.  When every cell holds a single character of one UTF-16 code
unit or is blank, and the numbers are in the range of exact arithmetic (the row and
the start column integers of absolute value up to 2^53, the end column below 2^53
so that every `index += 1` is exact, and fewer than 2^53 columns in the range so
that `buffered_spaces += 1` is), the loop of `fetchCols` keeps the invariant that after
`k + 1` executions of its body the `length` of `line` plus `buffered_spaces` is
`k + 1`, the number of cells scanned so far; and on a single-row range
`(row, col1)`-`(row, col2)` with `col1 ≤ col2` the returned line, which is the line
of the last state, has a `length` of at most `col2 - col1 + 1` before its final
newline.  The `length` is that of the source, in UTF-16 code units. -/
theorem fetchCols_width_bound (doc : Document) (hdoc : SingleUnitGrid doc)
    (row col1 col2 : Int) (hle : col1 ≤ col2)
    (_hrow : ExactInt row) (_hcol1 : ExactInt col1) (_hcol2 : ExactStep col2)
    (_hwidth : col2 - col1 < exactLimit) :
    (∃ line : JSString,
      fetchCols doc (JSNum.int row) (JSNum.int row, JSNum.int col1)
        (JSNum.int row, JSNum.int col2) = some (line ++ "\n".toList) ∧
      (utf16Length line : Int) ≤ col2 - col1 + 1 ∧
      line = ((fetchColsStates doc (JSNum.int row) (JSNum.int row) (JSNum.int col2)
        (doc.length + 1) (JSNum.int col1) ([], 0)).getLast?.getD ([], 0)).1) ∧
    (∀ (k : Nat) (s : JSString × Nat),
      (fetchColsStates doc (JSNum.int row) (JSNum.int row) (JSNum.int col2)
        (doc.length + 1) (JSNum.int col1) ([], 0))[k]? = some s →
      utf16Length s.1 + s.2 = k + 1) := by
  have hinv : ∀ (k : Nat) (s : JSString × Nat),
      (fetchColsStates doc (JSNum.int row) (JSNum.int row) (JSNum.int col2)
        (doc.length + 1) (JSNum.int col1) ([], 0))[k]? = some s →
      utf16Length s.1 + s.2 = k + 1 := by
    intro k s h
    have := fetchColsStates_invariant doc hdoc row _ _ _ col1 ([], 0) k s h
    have h0 : utf16Length ([] : JSString) = 0 := rfl
    simp only [h0] at this
    omega
  refine ⟨?_, hinv⟩
  have hloop := fetchColsLoop_int doc row col1 row col2 ([], 0)
  have hlast := fetchColsLoop_states doc _ _ _ _ _ _ _ hloop
  have hlen := fetchColsStates_length doc row col2 (doc.length + 1) col1 ([], 0) hle
  refine ⟨_, ?_, ?_, hlast⟩
  · have hstart : scanStart row row col1 = col1 := by simp [scanStart]
    rw [fetchCols_start, hstart]
    simp only [hloop, Option.map_some']
  · rw [hlast]
    cases hl : (fetchColsStates doc (JSNum.int row) (JSNum.int row) (JSNum.int col2)
        (doc.length + 1) (JSNum.int col1) ([], 0)).getLast? with
    | none =>
      have h0 : utf16Length ([] : JSString) = 0 := rfl
      simp only [Option.getD_none, h0]
      omega
    | some s =>
      obtain ⟨ys, hys⟩ := List.getLast?_eq_some_iff.1 hl
      have hk : (fetchColsStates doc (JSNum.int row) (JSNum.int row) (JSNum.int col2)
          (doc.length + 1) (JSNum.int col1) ([], 0))[ys.length]? = some s := by
        rw [hys]
        simp
      have h1 := hinv ys.length s hk
      have h2 : ys.length + 1 ≤ (col2 + 1 - col1).toNat := by
        have : (fetchColsStates doc (JSNum.int row) (JSNum.int row) (JSNum.int col2)
            (doc.length + 1) (JSNum.int col1) ([], 0)).length = ys.length + 1 := by
          rw [hys]
          simp
        omega
      simp only [Option.getD_some]
      omega

/-- C18 on a row `a`, blank, `b`, blank over the range `(1,1)`-`(1,4)`: the line
`"a b"` has length three, at most four. -/
theorem fetchCols_width_bound_witness :
    SingleUnitGrid (gridDoc [(1, 1, "a"), (1, 2, " "), (1, 3, "b"), (1, 4, "")]) ∧
    (1 : Int) ≤ 4 ∧ ExactInt 1 ∧ ExactStep 4 ∧ (4 : Int) - 1 < exactLimit ∧
    fetchCols (gridDoc [(1, 1, "a"), (1, 2, " "), (1, 3, "b"), (1, 4, "")]) (JSNum.int 1)
      (JSNum.int 1, JSNum.int 1) (JSNum.int 1, JSNum.int 4) = some "a b\n".toList ∧
    utf16Length "a b".toList = 3 ∧
    fetchColsStates (gridDoc [(1, 1, "a"), (1, 2, " "), (1, 3, "b"), (1, 4, "")]) (JSNum.int 1)
      (JSNum.int 1) (JSNum.int 4) 5 (JSNum.int 1) ([], 0)
      = [("a".toList, 0), ("a".toList, 1), ("a b".toList, 0), ("a b".toList, 1)] ∧
    ∀ (k : Nat) (s : JSString × Nat),
      (fetchColsStates (gridDoc [(1, 1, "a"), (1, 2, " "), (1, 3, "b"), (1, 4, "")])
        (JSNum.int 1) (JSNum.int 1) (JSNum.int 4)
        ((gridDoc [(1, 1, "a"), (1, 2, " "), (1, 3, "b"), (1, 4, "")]).length + 1)
        (JSNum.int 1) ([], 0))[k]? = some s →
      utf16Length s.1 + s.2 = k + 1 :=
  ⟨singleUnitGrid_of_elements _ (by decide), by decide, by decide, by decide, by decide,
    by decide, by decide, by decide,
    (fetchCols_width_bound _ (singleUnitGrid_of_elements _ (by decide)) 1 1 4 (by decide)
      (by decide) (by decide) (by decide) (by decide)).2⟩

/-! ## The ambient bindings do not influence a result -/

theorem rowColAmbient_result (amb : Ambient) (node : Option Node) :
    (rowColAmbient amb node).2 = rowCol node := by
  unfold rowColAmbient rowCol
  cases idOfNode node with
  | error e => rfl
  | ok id =>
    cases id with
    | none => rfl
    | some id =>
      simp only
      cases toNumber (splitDash id)[2]? <;> cases toNumber (splitDash id)[3]? <;> rfl

theorem fetchColsLoopAmbient_result (doc : Document) (row row2 col2 : JSNum) (fuel : Nat) :
    ∀ (amb : Ambient) (index : JSNum) (st : JSString × Nat),
      (fetchColsLoopAmbient doc row row2 col2 fuel amb index st).2
        = Completion.ofOption (fetchColsLoop doc row row2 col2 fuel index st) := by
  induction fuel with
  | zero =>
    intro amb index st
    rfl
  | succ fuel ih =>
    intro amb index st
    unfold fetchColsLoopAmbient fetchColsLoop
    cases hg : getElementById doc (cellId row index) with
    | none => rfl
    | some e =>
      simp only
      split
      · rfl
      · exact ih _ _ _

theorem fetchColsAmbient_result (doc : Document) (amb : Ambient) (row : JSNum)
    (start stop : Coord) :
    (fetchColsAmbient doc amb row start stop).2
      = Completion.ofOption (fetchCols doc row start stop) := by
  unfold fetchColsAmbient fetchCols
  dsimp only
  have h := fetchColsLoopAmbient_result doc row stop.1 stop.2 (doc.length + 1) amb
    (if row.eq start.1 then start.2 else JSNum.int 1) ([], 0)
  generalize fetchColsLoopAmbient doc row stop.1 stop.2 (doc.length + 1) amb
    (if row.eq start.1 then start.2 else JSNum.int 1) ([], 0) = res at h ⊢
  obtain ⟨amb1, c⟩ := res
  simp only at h
  cases hl : fetchColsLoop doc row stop.1 stop.2 (doc.length + 1)
      (if row.eq start.1 then start.2 else JSNum.int 1) ([], 0) with
  | none =>
    rw [hl] at h
    subst h
    rfl
  | some line =>
    rw [hl] at h
    subst h
    rfl

theorem fetchRowsLoopAmbient_result (doc : Document) (start stop : Coord) (rows : List Int) :
    ∀ (amb : Ambient) (result : JSString),
      (fetchRowsLoopAmbient doc start stop rows amb result).2
        = Completion.ofOption (fetchRowsLoop doc start stop rows result) := by
  induction rows with
  | nil =>
    intro amb result
    rfl
  | cons index rest ih =>
    intro amb result
    unfold fetchRowsLoopAmbient fetchRowsLoop
    have h := fetchColsAmbient_result doc amb (JSNum.int index) start stop
    generalize fetchColsAmbient doc amb (JSNum.int index) start stop = res at h ⊢
    obtain ⟨amb1, c⟩ := res
    simp only at h
    cases hl : fetchCols doc (JSNum.int index) start stop with
    | none =>
      rw [hl] at h
      subst h
      rfl
    | some line =>
      rw [hl] at h
      subst h
      exact ih amb1 (result ++ line)

theorem fetchRowsAmbient_result (doc : Document) (amb : Ambient) (coord1 coord2 : Coord) :
    (fetchRowsAmbient doc amb coord1 coord2).2
      = Completion.ofOption (fetchRows doc coord1 coord2) :=
  fetchRowsLoopAmbient_result doc _ _ _ amb []

/-- The pipeline with the ambient bindings returns what the pipeline on the
functions `rowCol` and `fetchRows` returns, from every ambient state. -/
theorem copyPipelineAmbient_result (doc : Document) (amb : Ambient) (selection : Selection) :
    (copyPipelineAmbient doc amb selection).2 = copyPipeline doc selection := by
  unfold copyPipelineAmbient copyPipeline
  have h1 := rowColAmbient_result amb selection.anchorNode
  generalize rowColAmbient amb selection.anchorNode = res1 at h1 ⊢
  obtain ⟨amb1, c1⟩ := res1
  simp only at h1
  subst h1
  cases rowCol selection.anchorNode with
  | error e => rfl
  | ok coord1 =>
    simp only
    have h2 := rowColAmbient_result amb1 selection.focusNode
    generalize rowColAmbient amb1 selection.focusNode = res2 at h2 ⊢
    obtain ⟨amb2, c2⟩ := res2
    simp only at h2
    subst h2
    cases rowCol selection.focusNode with
    | error e => rfl
    | ok coord2 => exact fetchRowsAmbient_result doc amb2 coord1 coord2

theorem modifyClipboardAmbient_result (doc : Document) (amb : Ambient) (selection : Selection)
    (event : ClipboardEvent) :
    (modifyClipboardAmbient doc amb selection event).2 = modifyClipboard doc selection event := by
  unfold modifyClipboardAmbient
  have h := copyPipelineAmbient_result doc amb selection
  generalize copyPipelineAmbient doc amb selection = res at h ⊢
  obtain ⟨amb1, c⟩ := res
  simp only at h
  subst h
  unfold copyPipeline modifyClipboard
  cases rowCol selection.anchorNode with
  | error e => rfl
  | ok coord1 =>
    cases rowCol selection.focusNode with
    | error e => rfl
    | ok coord2 =>
      cases hf : fetchRows doc coord1 coord2 with
      | none =>
        simp only [hf]
        rfl
      | some text =>
        simp only [hf]
        rfl

/-- C14: idempotence.  A second run of the copy pipeline (`rowCol` on the anchor,
`rowCol` on the focus, then `fetchRows`) on the same document and selection returns
what the first run returned, whatever the first run left in the ambient bindings
`element`, `row`, `col`, `_` and `copied`: from every ambient state the pipeline
returns what `fetchRows` returns on the coordinates that `rowCol` resolves for the
anchor and for the focus, so resolving the focus does not alter the coordinate of
the anchor; and `modifyClipboard` leaves the same text on the event both times. -/
theorem copyPipeline_idempotent (doc : Document) (selection : Selection)
    (event : ClipboardEvent) (amb : Ambient) :
    (copyPipelineAmbient doc (copyPipelineAmbient doc amb selection).1 selection).2
      = (copyPipelineAmbient doc amb selection).2 ∧
    (copyPipelineAmbient doc amb selection).2 = copyPipeline doc selection ∧
    (rowColAmbient amb selection.anchorNode).2 = rowCol selection.anchorNode ∧
    (rowColAmbient (rowColAmbient amb selection.anchorNode).1 selection.focusNode).2
      = rowCol selection.focusNode ∧
    (modifyClipboardAmbient doc (modifyClipboardAmbient doc amb selection event).1
        selection event).2
      = (modifyClipboardAmbient doc amb selection event).2 := by
  refine ⟨?_, copyPipelineAmbient_result doc amb selection, rowColAmbient_result _ _,
    rowColAmbient_result _ _, ?_⟩
  · rw [copyPipelineAmbient_result, copyPipelineAmbient_result]
  · rw [modifyClipboardAmbient_result, modifyClipboardAmbient_result]

/-- C14 on a selection from the cell `(1,2)` to the cell `(1,3)`: the first run,
from a state without any ambient binding, leaves `_`, `row`, `col`, `element`
assigned, and the second run from that state returns the same text `"bc\n"`. -/
theorem copyPipeline_idempotent_witness :
    copyPipelineAmbient (gridDoc [(1, 1, "a"), (1, 2, "b"), (1, 3, "c")])
        ⟨none, none, none, none, none⟩
        ⟨some (Node.mk 1 (some "exterm-cell-1-2".toList) none),
          some (Node.mk 1 (some "exterm-cell-1-3".toList) none)⟩
      = (⟨some (some "cell".toList), some (some "1".toList), some (some "3".toList),
          some (some ⟨"exterm-cell-1-3".toList, "c".toList⟩), none⟩,
         Completion.ok "bc\n".toList) ∧
    (copyPipelineAmbient (gridDoc [(1, 1, "a"), (1, 2, "b"), (1, 3, "c")])
        (copyPipelineAmbient (gridDoc [(1, 1, "a"), (1, 2, "b"), (1, 3, "c")])
          ⟨none, none, none, none, none⟩
          ⟨some (Node.mk 1 (some "exterm-cell-1-2".toList) none),
            some (Node.mk 1 (some "exterm-cell-1-3".toList) none)⟩).1
        ⟨some (Node.mk 1 (some "exterm-cell-1-2".toList) none),
          some (Node.mk 1 (some "exterm-cell-1-3".toList) none)⟩).2
      = (copyPipelineAmbient (gridDoc [(1, 1, "a"), (1, 2, "b"), (1, 3, "c")])
          ⟨none, none, none, none, none⟩
          ⟨some (Node.mk 1 (some "exterm-cell-1-2".toList) none),
            some (Node.mk 1 (some "exterm-cell-1-3".toList) none)⟩).2 :=
  ⟨by decide,
    (copyPipeline_idempotent (gridDoc [(1, 1, "a"), (1, 2, "b"), (1, 3, "c")])
      ⟨some (Node.mk 1 (some "exterm-cell-1-2".toList) none),
        some (Node.mk 1 (some "exterm-cell-1-3".toList) none)⟩ ⟨[], false⟩
      ⟨none, none, none, none, none⟩).1⟩

/-! ## The key-down listeners -/

/-- C15, the code at every key-down event: the listener registered on
`exterm-console` throws a `TypeError` at `console.log`, where `console` is the
element, and leaves the event as it was, so that `preventDefault` is not called by
this listener; the listener on the root does call it. -/
theorem consoleKeydown_throws (event : KeyEvent) :
    consoleKeydown event = (event, Completion.error Abort.typeError) ∧
    (consoleKeydown event).1.defaultPrevented = event.defaultPrevented ∧
    terminalKeydown event = (⟨true⟩, Completion.ok ()) := by
  refine ⟨rfl, rfl, rfl⟩

end ExTerm
